import Mathlib

/-!
Verification of the elf_reader library (a read-only ELF parser in Go)
against its natural-language specification.

The Go sources are shallowly embedded: byte buffers become lists of
natural numbers (each entry a byte value), unsigned machine integers
become naturals with explicit reduction modulo two to the power of the
width wherever Go arithmetic can overflow, and fallible Go functions
return a result type with an explicit constructor for runtime panics
(out-of-range indexing or slicing aborts a Go program; the embedding
surfaces this as the goPanic constructor instead of silently totalizing).
-/
set_option maxRecDepth 10000

/-- Error kinds of the library, one constructor per distinct failure the
embedded functions can report.  Go reports errors as formatted strings;
only the kind is part of the contract, so the embedding keeps kinds. -/
inductive ErrKind where
  | invalidStringOffset
  | unterminatedString
  | invalidIndex
  | badOffset
  | badSize
  | badSignature
  | shortHeader
  | badEncoding
  | badClass
  | badProgramHeaderOffset
  | shortProgramHeaderTable
  | badSectionHeaderOffset
  | shortSectionHeaderTable
  | notStringTable
  | notSymbolTable
  | notRelocationTable
  | notDynamicSection
  | notVersionRequirementSection
  | unterminatedTable
  | shortRead
  | missingDynamicSection
  | missingVersionCount
  | shortVersionNeed
  | shortVersionAux
deriving DecidableEq, Repr

/-- Result of an embedded Go computation: a value, an error, or a runtime
panic (Go aborts on out-of-range indexing and on slice bounds inversions;
the embedding makes those explicit rather than choosing a junk value). -/
inductive Res (α : Type) where
  | ok (val : α)
  | err (kind : ErrKind)
  | goPanic
deriving DecidableEq, Repr

/-- True when a result is a success. -/
def Res.isOkB {α : Type} : Res α → Bool
  | .ok _ => true
  | _ => false

/-- Extracts the success value of a result, with a default fallback. -/
def Res.getOk {α : Type} (d : α) : Res α → α
  | .ok v => v
  | _ => d

/-- Byte order, discovered at run time from byte 5 of the file. -/
inductive ByteOrder where
  | le
  | be
deriving DecidableEq, Repr, Inhabited

/-- Byte i of a buffer, with the convention that indices are only ever
used after the surrounding code has bounds-checked them (default 0). -/
def byteAt (data : List Nat) (i : Nat) : Nat := data.getD i 0

/-- A 16-bit read at the given offset in the given byte order, as done by
the binary.Read decoding of the Go structs. -/
def readU16 (e : ByteOrder) (data : List Nat) (o : Nat) : Nat :=
  match e with
  | .le => byteAt data o + 256 * byteAt data (o + 1)
  | .be => byteAt data (o + 1) + 256 * byteAt data o

/-- A 32-bit read at the given offset in the given byte order. -/
def readU32 (e : ByteOrder) (data : List Nat) (o : Nat) : Nat :=
  match e with
  | .le => readU16 .le data o + 65536 * readU16 .le data (o + 2)
  | .be => readU16 .be data (o + 2) + 65536 * readU16 .be data o

/-- A 64-bit read at the given offset in the given byte order. -/
def readU64 (e : ByteOrder) (data : List Nat) (o : Nat) : Nat :=
  match e with
  | .le => readU32 .le data o + 4294967296 * readU32 .le data (o + 4)
  | .be => readU32 .be data (o + 4) + 4294967296 * readU32 .be data o

/-- A 32-bit two-complement signed read (Go int32 fields, relocation
addends). -/
def readI32 (e : ByteOrder) (data : List Nat) (o : Nat) : Int :=
  let v := readU32 e data o
  if v < 2147483648 then (v : Int) else (v : Int) - 4294967296

/-- A 64-bit two-complement signed read (Go int64 fields). -/
def readI64 (e : ByteOrder) (data : List Nat) (o : Nat) : Int :=
  let v := readU64 e data o
  if v < 9223372036854775808 then (v : Int) else (v : Int) - 18446744073709551616

/-- All entries of the buffer are byte values. -/
def bytesOk (data : List Nat) : Bool := data.all (fun b => b < 256)

/-- The Go slice expression data[a:b] (callers establish a ≤ b ≤ length). -/
def goSlice (data : List Nat) (a b : Nat) : List Nat :=
  (data.drop a).take (b - a)

/-!  ## utils.go  -/
/-- The scanning loop of ReadStringAtOffset (utils.go), written with an
explicit step budget so that it is structurally recursive (the wrapper
below supplies the exact number of remaining buffer positions, so the
budget never runs out before the buffer does): starting from endIndex,
walk forward while the current byte is nonzero; none when the buffer ends
before a zero byte is found. -/
def scanForZeroAux (data : List Nat) : Nat → Nat → Option Nat
  | _, 0 => none
  | endIndex, fuel + 1 =>
    if h : endIndex < data.length then
      if data.get ⟨endIndex, h⟩ = 0 then some endIndex
      else scanForZeroAux data (endIndex + 1) fuel
    else none

/-- The scanning loop of ReadStringAtOffset (utils.go). -/
def scanForZero (data : List Nat) (endIndex : Nat) : Option Nat :=
  scanForZeroAux data endIndex (data.length - endIndex)

/-- ReadStringAtOffset (utils.go): the string starting at the offset, an
invalid-offset error when the offset is at or past the end, and an
unterminated-string error when no zero byte follows. -/
def ReadStringAtOffset (offset : Nat) (data : List Nat) : Res (List Nat) :=
  if offset ≥ data.length then .err .invalidStringOffset
  else
    match scanForZero data offset with
    | none => .err .unterminatedString
    | some endIndex => .ok (goSlice data offset endIndex)

/-- The loop body chain of ELF32Hash (utils.go), threading the running
uint32 hash through the remaining input; stops at the first zero byte. -/
def ELF32HashLoop (hash : Nat) : List Nat → Nat
  | [] => hash
  | character :: rest =>
    if character = 0 then hash
    else
      let h1 := ((hash <<< 4) + character) % 4294967296
      let highBits := h1 &&& 0xf0000000
      let h2 := if highBits ≠ 0 then h1 ^^^ (highBits >>> 24) else h1
      ELF32HashLoop (h2 &&& (highBits ^^^ 0xffffffff)) rest

/-- ELF32Hash (utils.go): the PJW-style hash of the input bytes. -/
def ELF32Hash (data : List Nat) : Nat := ELF32HashLoop 0 data

/-- Modelled from the spec: one step of the fold described by the claim
(h := (h shifted left by 4) + c; g := h AND 0xF0000000; if g is nonzero
then h := h XOR (g shifted right by 24); h := h AND (complement of g)),
on 32-bit unsigned arithmetic. -/
def elf32HashStepSpec (h c : Nat) : Nat :=
  let h1 := ((h <<< 4) + c) % 4294967296
  let g := h1 &&& 0xf0000000
  let h2 := if g ≠ 0 then h1 ^^^ (g >>> 24) else h1
  h2 &&& (g ^^^ 0xffffffff)

/-- The string table buffer of the test suite and of the spec seed
scenario (a zero byte, the bytes of Hi there!, a zero byte, then the
unterminated bytes ASDFASDF). -/
def exStringTable : List Nat :=
  [0, 72, 105, 32, 116, 104, 101, 114, 101, 33, 0, 65, 83, 68, 70, 65, 83, 68, 70]

/-!  ## Section type constants (elf32_format.go) -/
def SymbolTableSection : Nat := 2

def StringTableSection : Nat := 3

def RelaSection : Nat := 4

def DynamicLinkingTableSection : Nat := 6

def RelSection : Nat := 9

def DynamicLoaderSymbolSection : Nat := 11

def GNUVersionRequirementSection : Nat := 0x6ffffffe

/-!  ## ELF32 data model (elf32_format.go)

Field names follow the Go structs; the Go field named Type is rendered
Typ because Type is reserved in Lean, and the 7 constant padding bytes of
the identifier are not stored (they carry no information). -/
structure ELF32Header where
  Signature : Nat
  Class : Nat
  Endianness : Nat
  Version : Nat
  OSABI : Nat
  EABI : Nat
  Typ : Nat
  Machine : Nat
  Version2 : Nat
  EntryPoint : Nat
  ProgramHeaderOffset : Nat
  SectionHeaderOffset : Nat
  Flags : Nat
  HeaderSize : Nat
  ProgramHeaderEntrySize : Nat
  ProgramHeaderEntries : Nat
  SectionHeaderEntrySize : Nat
  SectionHeaderEntries : Nat
  SectionNamesTable : Nat
deriving DecidableEq, Repr, Inhabited

structure ELF32SectionHeader where
  Name : Nat
  Typ : Nat
  Flags : Nat
  VirtualAddress : Nat
  FileOffset : Nat
  Size : Nat
  LinkedIndex : Nat
  Info : Nat
  Align : Nat
  EntrySize : Nat
deriving DecidableEq, Repr, Inhabited

structure ELF32ProgramHeader where
  Typ : Nat
  FileOffset : Nat
  VirtualAddress : Nat
  PhysicalAddress : Nat
  FileSize : Nat
  MemorySize : Nat
  Flags : Nat
  Align : Nat
deriving DecidableEq, Repr, Inhabited

structure ELF32File where
  Header : ELF32Header
  Sections : List ELF32SectionHeader
  Segments : List ELF32ProgramHeader
  Raw : List Nat
  Endianness : ByteOrder
deriving DecidableEq, Repr, Inhabited

/-- ELF32File.GetSectionContent (elf32_format.go): the raw bytes of the
section at the given index.  The index bound uses greater-or-equal; the
offset and end comparisons mirror the two Go checks; the 32-bit addition
of offset and size wraps; Go would abort on a wrapped end smaller than
the start (that path has no guard in the 32-bit source), embedded as
goPanic. -/
def ELF32File.GetSectionContent (f : ELF32File) (sectionIndex : Nat) : Res (List Nat) :=
  if f.Sections.length ≤ sectionIndex then .err .invalidIndex
  else
    let start := (f.Sections.getD sectionIndex default).FileOffset
    if f.Raw.length < start then .err .badOffset
    else
      let endIdx := (start + (f.Sections.getD sectionIndex default).Size) % 4294967296
      if f.Raw.length < endIdx then .err .badSize
      else if endIdx < start then .goPanic
      else .ok (goSlice f.Raw start endIdx)

/-- ELF32File.GetSegmentContent (elf32_format.go): the raw bytes of the
segment at the given index.  The Go index guard uses strictly-greater
(segmentIndex > len(f.Segments)), so an index equal to the segment count
passes the guard and the subsequent array access aborts the program:
embedded as goPanic. -/
def ELF32File.GetSegmentContent (f : ELF32File) (segmentIndex : Nat) : Res (List Nat) :=
  if f.Segments.length < segmentIndex then .err .invalidIndex
  else if h : segmentIndex < f.Segments.length then
    let seg := f.Segments.get ⟨segmentIndex, h⟩
    if f.Raw.length < seg.FileOffset then .err .badOffset
    else
      let endIdx := (seg.FileOffset + seg.FileSize) % 4294967296
      if f.Raw.length < endIdx ∨ endIdx < seg.FileOffset then .err .badSize
      else .ok (goSlice f.Raw seg.FileOffset endIdx)
  else .goPanic

/-- ELF32File.IsStringTable (elf32_format.go). -/
def ELF32File.IsStringTable (f : ELF32File) (sectionIndex : Nat) : Bool :=
  if f.Sections.length ≤ sectionIndex then false
  else (f.Sections.getD sectionIndex default).Typ == StringTableSection

/-- ELF32File.IsSymbolTable (elf32_format.go). -/
def ELF32File.IsSymbolTable (f : ELF32File) (sectionIndex : Nat) : Bool :=
  if f.Sections.length ≤ sectionIndex then false
  else (f.Sections.getD sectionIndex default).Typ == SymbolTableSection
    || (f.Sections.getD sectionIndex default).Typ == DynamicLoaderSymbolSection

/-- ELF32File.IsRelocationTable (elf32_format.go). -/
def ELF32File.IsRelocationTable (f : ELF32File) (sectionIndex : Nat) : Bool :=
  if f.Sections.length ≤ sectionIndex then false
  else (f.Sections.getD sectionIndex default).Typ == RelaSection
    || (f.Sections.getD sectionIndex default).Typ == RelSection

/-- ELF32File.IsDynamicSection (elf32_format.go). -/
def ELF32File.IsDynamicSection (f : ELF32File) (sectionIndex : Nat) : Bool :=
  if f.Sections.length ≤ sectionIndex then false
  else (f.Sections.getD sectionIndex default).Typ == DynamicLinkingTableSection

/-- ELF32File.IsVersionRequirementSection (elf32_format.go). -/
def ELF32File.IsVersionRequirementSection (f : ELF32File) (sectionIndex : Nat) : Bool :=
  if f.Sections.length ≤ sectionIndex then false
  else (f.Sections.getD sectionIndex default).Typ == GNUVersionRequirementSection

/-!  ## Relocations (elf32_format.go, elf64_format.go, elf_interface.go) -/
/-- ELF32RelocationInfo.Type (elf32_format.go): the low 8 bits of the
packed 32-bit info word (the Go uint8 conversion). -/
def ELF32RelocationInfoType (n : Nat) : Nat := n % 256

/-- ELF32RelocationInfo.SymbolIndex (elf32_format.go): the info word
shifted right by 8. -/
def ELF32RelocationInfoSymbolIndex (n : Nat) : Nat := n >>> 8

/-- ELF64RelocationInfo.Type (elf64_format.go): the low 32 bits of the
packed 64-bit info word. -/
def ELF64RelocationInfoType (n : Nat) : Nat := n &&& 0xffffffff

/-- ELF64RelocationInfo.SymbolIndex (elf64_format.go): the info word
shifted right by 32, converted to uint32. -/
def ELF64RelocationInfoSymbolIndex (n : Nat) : Nat := (n >>> 32) % 4294967296

/-- ELF32Rel (elf32_format.go): a 32-bit relocation without addend. -/
structure ELF32Rel where
  Address : Nat
  RelocationInfo : Nat
deriving DecidableEq, Repr, Inhabited

/-- ELF32Rela (elf32_format.go): a 32-bit relocation with addend. -/
structure ELF32Rela where
  Address : Nat
  RelocationInfo : Nat
  AddendValue : Int
deriving DecidableEq, Repr, Inhabited

/-- ELF64Rela (elf64_format.go): a 64-bit relocation with addend; this is
the concrete record the unified facade hands back for 32-bit files. -/
structure ELF64Rela where
  Address : Nat
  RelocationInfo : Nat
  AddendValue : Int
deriving DecidableEq, Repr, Inhabited

/-- The ELF32Relocation interface (elf32_format.go): either variant. -/
inductive ELF32Relocation where
  | rel (r : ELF32Rel)
  | rela (r : ELF32Rela)
deriving DecidableEq, Repr, Inhabited

/-- ELF32Rel.Offset and ELF32Rela.Offset. -/
def ELF32Relocation.Offset : ELF32Relocation → Nat
  | .rel r => r.Address
  | .rela r => r.Address

/-- The raw packed info word carried by either variant. -/
def ELF32Relocation.InfoWord : ELF32Relocation → Nat
  | .rel r => r.RelocationInfo
  | .rela r => r.RelocationInfo

/-- ELF32Rel.Type and ELF32Rela.Type (the Go Type method; Typ because
Type is reserved). -/
def ELF32Relocation.Typ (r : ELF32Relocation) : Nat :=
  ELF32RelocationInfoType r.InfoWord

/-- ELF32Rel.SymbolIndex and ELF32Rela.SymbolIndex. -/
def ELF32Relocation.SymbolIndex (r : ELF32Relocation) : Nat :=
  ELF32RelocationInfoSymbolIndex r.InfoWord

/-- ELF32Rel.Addend (always 0) and ELF32Rela.Addend. -/
def ELF32Relocation.Addend : ELF32Relocation → Int
  | .rel _ => 0
  | .rela r => r.AddendValue

/-- Decoding of one ELF32Rel record at a byte offset of the section
content (binary.Read decodes the 2 consecutive uint32 fields). -/
def decodeELF32Rel (e : ByteOrder) (c : List Nat) (o : Nat) : ELF32Rel :=
  ⟨readU32 e c o, readU32 e c (o + 4)⟩

/-- Decoding of one ELF32Rela record at a byte offset of the section
content. -/
def decodeELF32Rela (e : ByteOrder) (c : List Nat) (o : Nat) : ELF32Rela :=
  ⟨readU32 e c o, readU32 e c (o + 4), readI32 e c (o + 8)⟩

/-- ELF32File.GetRelocationTable (elf32_format.go): decode the fixed
stride array of relocation records of the section; the rela branch uses
stride 12, the rel branch stride 8; binary.Read on a made slice of
entryCount records fails when the content holds fewer bytes than the
slice needs. -/
def ELF32File.GetRelocationTable (f : ELF32File) (sectionIndex : Nat) :
    Res (List ELF32Relocation) :=
  if f.IsRelocationTable sectionIndex = false then .err .notRelocationTable
  else
    let header := f.Sections.getD sectionIndex default
    match f.GetSectionContent sectionIndex with
    | .err k => .err k
    | .goPanic => .goPanic
    | .ok content =>
      if header.Typ = RelaSection then
        let entryCount := header.Size / 12
        if content.length < entryCount * 12 then .err .shortRead
        else .ok ((List.range entryCount).map
          (fun i => .rela (decodeELF32Rela f.Endianness content (12 * i))))
      else
        let entryCount := header.Size / 8
        if content.length < entryCount * 8 then .err .shortRead
        else .ok ((List.range entryCount).map
          (fun i => .rel (decodeELF32Rel f.Endianness content (8 * i))))

/-- The per-record conversion done inside ELF32File.GetRelocations
(elf_interface.go): extract the 32-bit type and symbol index, repack them
into the 64-bit info layout, and promote offset and addend. -/
def convertELF32Relocation (original : ELF32Relocation) : ELF64Rela :=
  let relocationType := original.Typ
  let symbolIndex := original.SymbolIndex
  let newInfo := relocationType ||| (symbolIndex <<< 32)
  ⟨original.Offset, newInfo, original.Addend⟩

/-- ELF32File.GetRelocations (elf_interface.go): the unified facade over
a 32-bit relocation table; each record is re-packed into the 64-bit
shape. -/
def ELF32File.GetRelocations (f : ELF32File) (index : Nat) : Res (List ELF64Rela) :=
  match f.GetRelocationTable index with
  | .err k => .err k
  | .goPanic => .goPanic
  | .ok table32 => .ok (table32.map convertELF32Relocation)

/-- A minimal 32-bit file holding one relocation table section of type
rel with one record (address 0, info word 0x121: type 0x21, symbol index
1). -/
def exRelFile : ELF32File :=
  ⟨default, [⟨0, RelSection, 0, 0, 0, 8, 0, 0, 0, 0⟩], [],
    [0, 0, 0, 0, 33, 1, 0, 0], .le⟩

/-!  ## ELF64 data model (elf64_format.go)

Only the pieces the claims touch are embedded: the file record, section
content access (the current source, with the greater-or-equal index
guard), the type predicates, string tables, symbol tables and dynamic
tables, and the re-parse entry point. -/
structure ELF64Header where
  Signature : Nat
  Class : Nat
  Endianness : Nat
  Version : Nat
  OSABI : Nat
  EABI : Nat
  Typ : Nat
  Machine : Nat
  Version2 : Nat
  EntryPoint : Nat
  ProgramHeaderOffset : Nat
  SectionHeaderOffset : Nat
  Flags : Nat
  HeaderSize : Nat
  ProgramHeaderEntrySize : Nat
  ProgramHeaderEntries : Nat
  SectionHeaderEntrySize : Nat
  SectionHeaderEntries : Nat
  SectionNamesTable : Nat
deriving DecidableEq, Repr, Inhabited

structure ELF64SectionHeader where
  Name : Nat
  Typ : Nat
  Flags : Nat
  VirtualAddress : Nat
  FileOffset : Nat
  Size : Nat
  LinkedIndex : Nat
  Info : Nat
  Align : Nat
  EntrySize : Nat
deriving DecidableEq, Repr, Inhabited

structure ELF64ProgramHeader where
  Typ : Nat
  Flags : Nat
  FileOffset : Nat
  VirtualAddress : Nat
  PhysicalAddress : Nat
  FileSize : Nat
  MemorySize : Nat
  Align : Nat
deriving DecidableEq, Repr, Inhabited

structure ELF64File where
  Header : ELF64Header
  Sections : List ELF64SectionHeader
  Segments : List ELF64ProgramHeader
  Raw : List Nat
  Endianness : ByteOrder
deriving DecidableEq, Repr, Inhabited

/-- ELF64File.GetSectionContent (elf64_format.go, current revision): the
index guard uses greater-or-equal, the offset and end checks mirror the
Go comparisons, the 64-bit addition of offset and size wraps, and a
wrapped end below the start is rejected (the end-below-start guard is
present in this 64-bit version). -/
def ELF64File.GetSectionContent (f : ELF64File) (sectionIndex : Nat) : Res (List Nat) :=
  if f.Sections.length ≤ sectionIndex then .err .invalidIndex
  else
    let start := (f.Sections.getD sectionIndex default).FileOffset
    if f.Raw.length < start then .err .badOffset
    else
      let endIdx := (start + (f.Sections.getD sectionIndex default).Size)
        % 18446744073709551616
      if f.Raw.length < endIdx ∨ endIdx < start then .err .badSize
      else .ok (goSlice f.Raw start endIdx)

/-- ELF64File.IsStringTable (elf64_format.go). -/
def ELF64File.IsStringTable (f : ELF64File) (sectionIndex : Nat) : Bool :=
  if f.Sections.length ≤ sectionIndex then false
  else (f.Sections.getD sectionIndex default).Typ == StringTableSection

/-- ELF64File.IsSymbolTable (elf64_format.go). -/
def ELF64File.IsSymbolTable (f : ELF64File) (sectionIndex : Nat) : Bool :=
  if f.Sections.length ≤ sectionIndex then false
  else (f.Sections.getD sectionIndex default).Typ == SymbolTableSection
    || (f.Sections.getD sectionIndex default).Typ == DynamicLoaderSymbolSection

/-- ELF64File.IsRelocationTable (elf64_format.go). -/
def ELF64File.IsRelocationTable (f : ELF64File) (sectionIndex : Nat) : Bool :=
  if f.Sections.length ≤ sectionIndex then false
  else (f.Sections.getD sectionIndex default).Typ == RelaSection
    || (f.Sections.getD sectionIndex default).Typ == RelSection

/-- ELF64File.IsDynamicSection (elf64_format.go). -/
def ELF64File.IsDynamicSection (f : ELF64File) (sectionIndex : Nat) : Bool :=
  if f.Sections.length ≤ sectionIndex then false
  else (f.Sections.getD sectionIndex default).Typ == DynamicLinkingTableSection

/-!  ## Dynamic linking tables (elf32_format.go, elf64_format.go) -/
/-- ELF32DynamicEntry: a (tag, value) pair of uint32. -/
structure ELF32DynamicEntry where
  Tag : Nat
  Value : Nat
deriving DecidableEq, Repr, Inhabited

/-- ELF64DynamicEntry: the tag is a Go int64, the value a uint64. -/
structure ELF64DynamicEntry where
  Tag : Int
  Value : Nat
deriving DecidableEq, Repr, Inhabited

/-- Decoding of one 8-byte ELF32DynamicEntry at a byte offset. -/
def decodeELF32DynamicEntry (e : ByteOrder) (c : List Nat) (o : Nat) : ELF32DynamicEntry :=
  ⟨readU32 e c o, readU32 e c (o + 4)⟩

/-- Decoding of one 16-byte ELF64DynamicEntry at a byte offset. -/
def decodeELF64DynamicEntry (e : ByteOrder) (c : List Nat) (o : Nat) : ELF64DynamicEntry :=
  ⟨readI64 e c o, readU64 e c (o + 8)⟩

/-- ELF32File.GetDynamicTable (elf32_format.go): all size-div-8 entries
of the section are decoded at stride 8 in file order; nothing stops at a
tag of 0.  Content-fetch errors propagate (Go wraps the message; the kind
is preserved). -/
def ELF32File.GetDynamicTable (f : ELF32File) (sectionIndex : Nat) :
    Res (List ELF32DynamicEntry) :=
  if f.IsDynamicSection sectionIndex = false then .err .notDynamicSection
  else
    match f.GetSectionContent sectionIndex with
    | .err k => .err k
    | .goPanic => .goPanic
    | .ok content =>
      let entryCount := (f.Sections.getD sectionIndex default).Size / 8
      if content.length < entryCount * 8 then .err .shortRead
      else .ok ((List.range entryCount).map
        (fun i => decodeELF32DynamicEntry f.Endianness content (8 * i)))

/-- ELF64File.GetDynamicTable (elf64_format.go): as for 32 bits, with
16-byte entries. -/
def ELF64File.GetDynamicTable (f : ELF64File) (sectionIndex : Nat) :
    Res (List ELF64DynamicEntry) :=
  if f.IsDynamicSection sectionIndex = false then .err .notDynamicSection
  else
    match f.GetSectionContent sectionIndex with
    | .err k => .err k
    | .goPanic => .goPanic
    | .ok content =>
      let entryCount := (f.Sections.getD sectionIndex default).Size / 16
      if content.length < entryCount * 16 then .err .shortRead
      else .ok ((List.range entryCount).map
        (fun i => decodeELF64DynamicEntry f.Endianness content (16 * i)))

/-!  ## String tables (elf32_format.go, elf64_format.go) -/
/-- The splitting of Go strings.Split on the zero byte: the list of
maximal zero-free chunks; splitting the empty string yields one empty
chunk. -/
def splitOnZero : List Nat → List (List Nat)
  | [] => [[]]
  | b :: rest =>
    if b = 0 then [] :: splitOnZero rest
    else
      match splitOnZero rest with
      | [] => [[b]]
      | g :: gs => (b :: g) :: gs

/-- ELF32File.GetStringTable (elf32_format.go): requires a string table
section; the last content byte must be zero, otherwise an
unterminated-table error; on success the content without its trailing
zero is split on zero bytes.  On empty content the Go expression
content[len(content)-1] aborts the program: embedded as goPanic. -/
def ELF32File.GetStringTable (f : ELF32File) (sectionIndex : Nat) :
    Res (List (List Nat)) :=
  if f.IsStringTable sectionIndex = false then .err .notStringTable
  else
    match f.GetSectionContent sectionIndex with
    | .err k => .err k
    | .goPanic => .goPanic
    | .ok content =>
      match content.getLast? with
      | none => .goPanic
      | some b =>
        if b ≠ 0 then .err .unterminatedTable
        else .ok (splitOnZero content.dropLast)

/-- ELF64File.GetStringTable (elf64_format.go): identical logic. -/
def ELF64File.GetStringTable (f : ELF64File) (sectionIndex : Nat) :
    Res (List (List Nat)) :=
  if f.IsStringTable sectionIndex = false then .err .notStringTable
  else
    match f.GetSectionContent sectionIndex with
    | .err k => .err k
    | .goPanic => .goPanic
    | .ok content =>
      match content.getLast? with
      | none => .goPanic
      | some b =>
        if b ≠ 0 then .err .unterminatedTable
        else .ok (splitOnZero content.dropLast)

/-!  ## Symbol tables (elf32_format.go, elf64_format.go) -/
/-- ELF32Symbol (elf32_format.go): name offset, value, size, info byte,
other byte, section index. -/
structure ELF32Symbol where
  Name : Nat
  Value : Nat
  Size : Nat
  Info : Nat
  Other : Nat
  SectionIndex : Nat
deriving DecidableEq, Repr, Inhabited

/-- ELF64Symbol (elf64_format.go): same data with the 64-bit field order
(name, info, other, section index, value, size). -/
structure ELF64Symbol where
  Name : Nat
  Info : Nat
  Other : Nat
  SectionIndex : Nat
  Value : Nat
  Size : Nat
deriving DecidableEq, Repr, Inhabited

/-- Decoding of one 16-byte ELF32Symbol record at a byte offset. -/
def decodeELF32Symbol (e : ByteOrder) (c : List Nat) (o : Nat) : ELF32Symbol :=
  ⟨readU32 e c o, readU32 e c (o + 4), readU32 e c (o + 8),
    byteAt c (o + 12), byteAt c (o + 13), readU16 e c (o + 14)⟩

/-- Decoding of one 24-byte ELF64Symbol record at a byte offset. -/
def decodeELF64Symbol (e : ByteOrder) (c : List Nat) (o : Nat) : ELF64Symbol :=
  ⟨readU32 e c o, byteAt c (o + 4), byteAt c (o + 5), readU16 e c (o + 6),
    readU64 e c (o + 8), readU64 e c (o + 16)⟩

/-- The name-resolving loop shared by both GetSymbolTable versions: for
each symbol name offset in order, offset 0 yields the empty string with
no lookup, any other offset is read from the name table, and the first
failure aborts the whole table. -/
def buildSymbolNames (nameTable : List Nat) : List Nat → Res (List (List Nat))
  | [] => .ok []
  | nameOffset :: rest =>
    if nameOffset = 0 then
      match buildSymbolNames nameTable rest with
      | .ok names => .ok ([] :: names)
      | .err k => .err k
      | .goPanic => .goPanic
    else
      match ReadStringAtOffset nameOffset nameTable with
      | .err k => .err k
      | .goPanic => .goPanic
      | .ok s =>
        match buildSymbolNames nameTable rest with
        | .ok names => .ok (s :: names)
        | .err k => .err k
        | .goPanic => .goPanic

/-- ELF32File.GetSymbolTable (elf32_format.go): size-div-16 records are
decoded from the section content; the linked section (the Go uint16
conversion of the 32-bit link field) provides the name string table; the
names are resolved per record. -/
def ELF32File.GetSymbolTable (f : ELF32File) (sectionIndex : Nat) :
    Res (List ELF32Symbol × List (List Nat)) :=
  if f.IsSymbolTable sectionIndex = false then .err .notSymbolTable
  else
    match f.GetSectionContent sectionIndex with
    | .err k => .err k
    | .goPanic => .goPanic
    | .ok content =>
      match f.GetSectionContent
          ((f.Sections.getD sectionIndex default).LinkedIndex % 65536) with
      | .err k => .err k
      | .goPanic => .goPanic
      | .ok nameTable =>
        let entryCount := (f.Sections.getD sectionIndex default).Size / 16
        if content.length < entryCount * 16 then .err .shortRead
        else
          let symbols := (List.range entryCount).map
            (fun i => decodeELF32Symbol f.Endianness content (16 * i))
          match buildSymbolNames nameTable (symbols.map (fun s => s.Name)) with
          | .err k => .err k
          | .goPanic => .goPanic
          | .ok names => .ok (symbols, names)

/-- ELF64File.GetSymbolTable (elf64_format.go): as for 32 bits, with
24-byte records. -/
def ELF64File.GetSymbolTable (f : ELF64File) (sectionIndex : Nat) :
    Res (List ELF64Symbol × List (List Nat)) :=
  if f.IsSymbolTable sectionIndex = false then .err .notSymbolTable
  else
    match f.GetSectionContent sectionIndex with
    | .err k => .err k
    | .goPanic => .goPanic
    | .ok content =>
      match f.GetSectionContent
          ((f.Sections.getD sectionIndex default).LinkedIndex % 65536) with
      | .err k => .err k
      | .goPanic => .goPanic
      | .ok nameTable =>
        let entryCount := (f.Sections.getD sectionIndex default).Size / 24
        if content.length < entryCount * 24 then .err .shortRead
        else
          let symbols := (List.range entryCount).map
            (fun i => decodeELF64Symbol f.Endianness content (24 * i))
          match buildSymbolNames nameTable (symbols.map (fun s => s.Name)) with
          | .err k => .err k
          | .goPanic => .goPanic
          | .ok names => .ok (symbols, names)

/-!  ## File header and table decoding (ReparseData paths) -/
/-- Decoding of the 52-byte ELF32 file header (all multi-byte fields in
the discovered byte order; the 7 padding bytes are skipped). -/
def decodeELF32Header (e : ByteOrder) (raw : List Nat) : ELF32Header :=
  ⟨readU32 e raw 0, byteAt raw 4, byteAt raw 5, byteAt raw 6, byteAt raw 7,
    byteAt raw 8, readU16 e raw 16, readU16 e raw 18, readU32 e raw 20,
    readU32 e raw 24, readU32 e raw 28, readU32 e raw 32, readU32 e raw 36,
    readU16 e raw 40, readU16 e raw 42, readU16 e raw 44, readU16 e raw 46,
    readU16 e raw 48, readU16 e raw 50⟩

/-- Decoding of the 64-byte ELF64 file header. -/
def decodeELF64Header (e : ByteOrder) (raw : List Nat) : ELF64Header :=
  ⟨readU32 e raw 0, byteAt raw 4, byteAt raw 5, byteAt raw 6, byteAt raw 7,
    byteAt raw 8, readU16 e raw 16, readU16 e raw 18, readU32 e raw 20,
    readU64 e raw 24, readU64 e raw 32, readU64 e raw 40, readU32 e raw 48,
    readU16 e raw 52, readU16 e raw 54, readU16 e raw 56, readU16 e raw 58,
    readU16 e raw 60, readU16 e raw 62⟩

/-- The decoded signature field replaced by the canonical little-endian
signature word, as both ReparseData versions do after decoding. -/
def ELF32Header.withSignature (h : ELF32Header) (sig : Nat) : ELF32Header :=
  ⟨sig, h.Class, h.Endianness, h.Version, h.OSABI, h.EABI, h.Typ, h.Machine,
    h.Version2, h.EntryPoint, h.ProgramHeaderOffset, h.SectionHeaderOffset,
    h.Flags, h.HeaderSize, h.ProgramHeaderEntrySize, h.ProgramHeaderEntries,
    h.SectionHeaderEntrySize, h.SectionHeaderEntries, h.SectionNamesTable⟩

/-- The 64-bit analogue of the signature replacement. -/
def ELF64Header.withSignature (h : ELF64Header) (sig : Nat) : ELF64Header :=
  ⟨sig, h.Class, h.Endianness, h.Version, h.OSABI, h.EABI, h.Typ, h.Machine,
    h.Version2, h.EntryPoint, h.ProgramHeaderOffset, h.SectionHeaderOffset,
    h.Flags, h.HeaderSize, h.ProgramHeaderEntrySize, h.ProgramHeaderEntries,
    h.SectionHeaderEntrySize, h.SectionHeaderEntries, h.SectionNamesTable⟩

/-- Decoding of one 32-byte ELF32 program header record at a byte offset. -/
def decodeELF32ProgramHeader (e : ByteOrder) (c : List Nat) (o : Nat) : ELF32ProgramHeader :=
  ⟨readU32 e c o, readU32 e c (o + 4), readU32 e c (o + 8), readU32 e c (o + 12),
    readU32 e c (o + 16), readU32 e c (o + 20), readU32 e c (o + 24),
    readU32 e c (o + 28)⟩

/-- Decoding of one 40-byte ELF32 section header record at a byte offset. -/
def decodeELF32SectionHeader (e : ByteOrder) (c : List Nat) (o : Nat) : ELF32SectionHeader :=
  ⟨readU32 e c o, readU32 e c (o + 4), readU32 e c (o + 8), readU32 e c (o + 12),
    readU32 e c (o + 16), readU32 e c (o + 20), readU32 e c (o + 24),
    readU32 e c (o + 28), readU32 e c (o + 32), readU32 e c (o + 36)⟩

/-- Decoding of one 56-byte ELF64 program header record (type, flags,
then the six 64-bit fields; the flags position differs from 32 bits). -/
def decodeELF64ProgramHeader (e : ByteOrder) (c : List Nat) (o : Nat) : ELF64ProgramHeader :=
  ⟨readU32 e c o, readU32 e c (o + 4), readU64 e c (o + 8), readU64 e c (o + 16),
    readU64 e c (o + 24), readU64 e c (o + 32), readU64 e c (o + 40),
    readU64 e c (o + 48)⟩

/-- Decoding of one 64-byte ELF64 section header record at a byte offset. -/
def decodeELF64SectionHeader (e : ByteOrder) (c : List Nat) (o : Nat) : ELF64SectionHeader :=
  ⟨readU32 e c o, readU32 e c (o + 4), readU64 e c (o + 8), readU64 e c (o + 16),
    readU64 e c (o + 24), readU64 e c (o + 32), readU32 e c (o + 40),
    readU32 e c (o + 44), readU64 e c (o + 48), readU64 e c (o + 56)⟩

/-- ELF32File.parseProgramHeaders (elf32_format.go): the offset must be
inside the buffer (even for zero entries) and the remaining bytes must
cover all 32-byte records. -/
def parseELF32ProgramHeaders (e : ByteOrder) (raw : List Nat) (header : ELF32Header) :
    Res (List ELF32ProgramHeader) :=
  if raw.length ≤ header.ProgramHeaderOffset then .err .badProgramHeaderOffset
  else
    let data := raw.drop header.ProgramHeaderOffset
    if data.length < header.ProgramHeaderEntries * 32 then .err .shortProgramHeaderTable
    else .ok ((List.range header.ProgramHeaderEntries).map
      (fun i => decodeELF32ProgramHeader e data (32 * i)))

/-- ELF32File.parseSectionHeaders (elf32_format.go): zero entries yield
an empty list with no offset requirement; otherwise the offset must be
inside the buffer and the remaining bytes must cover all 40-byte
records. -/
def parseELF32SectionHeaders (e : ByteOrder) (raw : List Nat) (header : ELF32Header) :
    Res (List ELF32SectionHeader) :=
  if header.SectionHeaderEntries = 0 then .ok []
  else if raw.length ≤ header.SectionHeaderOffset then .err .badSectionHeaderOffset
  else
    let data := raw.drop header.SectionHeaderOffset
    if data.length < header.SectionHeaderEntries * 40 then .err .shortSectionHeaderTable
    else .ok ((List.range header.SectionHeaderEntries).map
      (fun i => decodeELF32SectionHeader e data (40 * i)))

/-- ELF64File.parseProgramHeaders (elf64_format.go), 56-byte records. -/
def parseELF64ProgramHeaders (e : ByteOrder) (raw : List Nat) (header : ELF64Header) :
    Res (List ELF64ProgramHeader) :=
  if raw.length ≤ header.ProgramHeaderOffset then .err .badProgramHeaderOffset
  else
    let data := raw.drop header.ProgramHeaderOffset
    if data.length < header.ProgramHeaderEntries * 56 then .err .shortProgramHeaderTable
    else .ok ((List.range header.ProgramHeaderEntries).map
      (fun i => decodeELF64ProgramHeader e data (56 * i)))

/-- ELF64File.parseSectionHeaders (elf64_format.go), 64-byte records. -/
def parseELF64SectionHeaders (e : ByteOrder) (raw : List Nat) (header : ELF64Header) :
    Res (List ELF64SectionHeader) :=
  if header.SectionHeaderEntries = 0 then .ok []
  else if raw.length ≤ header.SectionHeaderOffset then .err .badSectionHeaderOffset
  else
    let data := raw.drop header.SectionHeaderOffset
    if data.length < header.SectionHeaderEntries * 64 then .err .shortSectionHeaderTable
    else .ok ((List.range header.SectionHeaderEntries).map
      (fun i => decodeELF64SectionHeader e data (64 * i)))

/-- ParseELF32File via ELF32File.ReparseData (elf32_format.go): read the
4-byte little-endian signature word and require it to equal 0x464c457f;
require at least 6 bytes; classify the encoding from byte 5; decode the
52-byte header in that byte order, restore the canonical signature, and
require class 1; then decode the program and section header tables. -/
def ParseELF32File (raw : List Nat) : Res ELF32File :=
  if raw.length < 4 then .err .shortHeader
  else
    let signature := readU32 .le raw 0
    if signature ≠ 0x464c457f then .err .badSignature
    else if raw.length < 6 then .err .shortHeader
    else if byteAt raw 5 ≠ 1 ∧ byteAt raw 5 ≠ 2 then .err .badEncoding
    else
      let endianness := if byteAt raw 5 = 1 then ByteOrder.le else ByteOrder.be
      if raw.length < 52 then .err .shortHeader
      else
        let header := (decodeELF32Header endianness raw).withSignature signature
        if header.Class ≠ 1 then .err .badClass
        else
          match parseELF32ProgramHeaders endianness raw header with
          | .err k => .err k
          | .goPanic => .goPanic
          | .ok segments =>
            match parseELF32SectionHeaders endianness raw header with
            | .err k => .err k
            | .goPanic => .goPanic
            | .ok sections => .ok ⟨header, sections, segments, raw, endianness⟩

/-- ParseELF64File via ELF64File.ReparseData (elf64_format.go): the
4-byte signature word is read and preserved but never compared against
the expected value (the 64-bit re-parse has no signature check); at least
6 bytes are required; the encoding comes from byte 5; the 64-byte header
is decoded, the canonical signature restored, class 2 required; then the
two tables are decoded. -/
def ParseELF64File (raw : List Nat) : Res ELF64File :=
  if raw.length < 4 then .err .shortHeader
  else
    let signature := readU32 .le raw 0
    if raw.length < 6 then .err .shortHeader
    else if byteAt raw 5 ≠ 1 ∧ byteAt raw 5 ≠ 2 then .err .badEncoding
    else
      let endianness := if byteAt raw 5 = 1 then ByteOrder.le else ByteOrder.be
      if raw.length < 64 then .err .shortHeader
      else
        let header := (decodeELF64Header endianness raw).withSignature signature
        if header.Class ≠ 2 then .err .badClass
        else
          match parseELF64ProgramHeaders endianness raw header with
          | .err k => .err k
          | .goPanic => .goPanic
          | .ok segments =>
            match parseELF64SectionHeaders endianness raw header with
            | .err k => .err k
            | .goPanic => .goPanic
            | .ok sections => .ok ⟨header, sections, segments, raw, endianness⟩

/-!  ## GNU version requirement walker (elf32_format.go) -/
/-- ELF32VersionNeed (the Elf32_Verneed structure). -/
structure ELF32VersionNeed where
  Version : Nat
  Count : Nat
  File : Nat
  AuxOffset : Nat
  Next : Nat
deriving DecidableEq, Repr, Inhabited

/-- ELF32VersionNeedAux (the Elf32_Vernaux structure). -/
structure ELF32VersionNeedAux where
  Hash : Nat
  Flags : Nat
  Other : Nat
  Name : Nat
  Next : Nat
deriving DecidableEq, Repr, Inhabited

/-- binary.Read of one 16-byte Verneed record at a reader position: fails
(none) when fewer than 16 bytes remain. -/
def readVersionNeedAt (e : ByteOrder) (c : List Nat) (pos : Nat) :
    Option ELF32VersionNeed :=
  if pos + 16 ≤ c.length then
    some ⟨readU16 e c pos, readU16 e c (pos + 2), readU32 e c (pos + 4),
      readU32 e c (pos + 8), readU32 e c (pos + 12)⟩
  else none

/-- binary.Read of one 16-byte Vernaux record at a reader position. -/
def readVersionNeedAuxAt (e : ByteOrder) (c : List Nat) (pos : Nat) :
    Option ELF32VersionNeedAux :=
  if pos + 16 ≤ c.length then
    some ⟨readU32 e c pos, readU16 e c (pos + 4), readU16 e c (pos + 6),
      readU32 e c (pos + 8), readU32 e c (pos + 12)⟩
  else none

/-- The loop of ELF32File.parseVersionNeedAux: read one aux record at the
cursor, then seek to the record start plus its Next field (self-relative),
count times.  Returns the records and, as embedding instrumentation, the
list of start offsets each record was read from. -/
def parseVersionNeedAuxLoop (e : ByteOrder) (c : List Nat) :
    Nat → Nat → Res (List ELF32VersionNeedAux × List Nat)
  | _, 0 => .ok ([], [])
  | pos, count + 1 =>
    match readVersionNeedAuxAt e c pos with
    | none => .err .shortVersionAux
    | some a =>
      match parseVersionNeedAuxLoop e c (pos + a.Next) count with
      | .err k => .err k
      | .goPanic => .goPanic
      | .ok (rest, restOffs) => .ok (a :: rest, pos :: restOffs)

/-- ELF32File.parseVersionNeedAux: the aux chain starting at the given
first offset in the section content. -/
def parseVersionNeedAux (e : ByteOrder) (c : List Nat) (firstOffset : Nat)
    (count : Nat) : Res (List ELF32VersionNeedAux × List Nat) :=
  parseVersionNeedAuxLoop e c firstOffset count

/-- The main loop of ELF32File.ParseVersionRequirementSection: at each
step record the current start offset, read a Verneed there, walk its aux
chain at the start plus its AuxOffset field, and advance to the start
plus its Next field, for the declared number of iterations.  Beyond the
Go results the embedding accumulates each visited main-record start
offset and the visited offsets of each aux chain. -/
def parseVersionNeedLoop (e : ByteOrder) (c : List Nat) :
    Nat → Nat →
    Res (List ELF32VersionNeed × List (List ELF32VersionNeedAux × List Nat) × List Nat)
  | _, 0 => .ok ([], [], [])
  | pos, k + 1 =>
    match readVersionNeedAt e c pos with
    | none => .err .shortVersionNeed
    | some v =>
      match parseVersionNeedAux e c (pos + v.AuxOffset) v.Count with
      | .err kk => .err kk
      | .goPanic => .goPanic
      | .ok aux =>
        match parseVersionNeedLoop e c (pos + v.Next) k with
        | .err kk => .err kk
        | .goPanic => .goPanic
        | .ok (ns, as_, os) => .ok (v :: ns, aux :: as_, pos :: os)

/-- The scan of the dynamic entries inside
ELF32File.getVersionDependencyTableSize: stop at the first tag 0, return
the value of the first tag 0x6fffffff, and report a missing count when
neither occurs. -/
def findVersionRequirementCount : List ELF32DynamicEntry → Res Nat
  | [] => .err .missingVersionCount
  | entry :: rest =>
    if entry.Tag = 0 then .err .missingVersionCount
    else if entry.Tag = 0x6fffffff then .ok entry.Value
    else findVersionRequirementCount rest

/-- ELF32File.getVersionDependencyTableSize (elf32_format.go): find the
first dynamic section (indices pass through the Go uint16 conversion),
read its table, and scan for the version requirement count tag. -/
def ELF32File.getVersionDependencyTableSize (f : ELF32File) : Res Nat :=
  match (List.range f.Sections.length).find?
      (fun i => f.IsDynamicSection (i % 65536)) with
  | none => .err .missingDynamicSection
  | some i =>
    match f.GetDynamicTable (i % 65536) with
    | .err k => .err k
    | .goPanic => .goPanic
    | .ok entries => findVersionRequirementCount entries

/-- ELF32File.ParseVersionRequirementSection (elf32_format.go): type
check, content fetch, count lookup; a count of zero returns empty results
and no error; otherwise the chain walk starts at offset 0.  The two
trace components (per-chain aux offsets, main record offsets) are
embedding instrumentation; the Go function returns the needs and the aux
record lists. -/
def ELF32File.ParseVersionRequirementSection (f : ELF32File) (sectionIndex : Nat) :
    Res (List ELF32VersionNeed × List (List ELF32VersionNeedAux × List Nat) × List Nat) :=
  if f.IsVersionRequirementSection sectionIndex = false then
    .err .notVersionRequirementSection
  else
    match f.GetSectionContent sectionIndex with
    | .err k => .err k
    | .goPanic => .goPanic
    | .ok content =>
      match f.getVersionDependencyTableSize with
      | .err k => .err k
      | .goPanic => .goPanic
      | .ok entryCount =>
        if entryCount = 0 then .ok ([], [], [])
        else parseVersionNeedLoop f.Endianness content 0 entryCount

/-!  ## Concrete inputs -/
/-- A 64-byte buffer whose first four bytes are not the ELF magic, with
class byte 2 (64-bit) and encoding byte 1 (little endian), all other
bytes zero. -/
def exBad64 : List Nat := [0, 0, 0, 0, 2, 1] ++ List.replicate 58 0

/-- A minimal valid 52-byte little-endian 32-bit ELF buffer: the magic,
class 1, encoding 1, and zero program and section header entries. -/
def exMin32 : List Nat := [127, 69, 76, 70, 1, 1] ++ List.replicate 46 0

/-- A 32-bit file (built directly) holding one dynamic section of 16
bytes: a tag 0x6fffffff entry would not fit the claim here, instead the
first entry is the terminator (tag 0, value 5) and a second entry (tag
21, value 7) follows it. -/
def exDynFile32 : ELF32File :=
  ⟨default, [⟨0, DynamicLinkingTableSection, 0, 0, 0, 16, 0, 0, 0, 0⟩], [],
    [0, 0, 0, 0, 5, 0, 0, 0, 21, 0, 0, 0, 7, 0, 0, 0], .le⟩

/-- The 64-bit analogue: a 32-byte dynamic section whose first entry is
the terminator (tag 0, value 5) followed by a needed-library entry (tag
1, value 9). -/
def exDynFile64 : ELF64File :=
  ⟨default, [⟨0, DynamicLinkingTableSection, 0, 0, 0, 32, 0, 0, 0, 0⟩], [],
    [0, 0, 0, 0, 0, 0, 0, 0, 5, 0, 0, 0, 0, 0, 0, 0,
     1, 0, 0, 0, 0, 0, 0, 0, 9, 0, 0, 0, 0, 0, 0, 0], .le⟩

/-- A 135-byte little-endian 32-bit ELF buffer with two sections: the
null section and a string table whose content is the three bytes 97 98 0
(the string ab, zero-terminated, with no leading zero byte). -/
def exStrRaw : List Nat :=
  [127, 69, 76, 70, 1, 1] ++ List.replicate 26 0 ++ [52, 0, 0, 0]
    ++ List.replicate 12 0 ++ [2, 0, 0, 0]
    ++ List.replicate 40 0
    ++ [0, 0, 0, 0, 3, 0, 0, 0] ++ List.replicate 8 0
    ++ [132, 0, 0, 0, 3, 0, 0, 0] ++ List.replicate 16 0
    ++ [97, 98, 0]

/-- A 64-bit file (built directly) with a string table section whose
content 0 97 0 starts and ends with a zero byte. -/
def exStrFile64 : ELF64File :=
  ⟨default, [⟨0, StringTableSection, 0, 0, 0, 3, 0, 0, 0, 0⟩], [],
    [0, 97, 0], .le⟩

/-- A 190-byte little-endian 32-bit ELF buffer with three sections: the
null section, a symbol table of one record whose name offset is 1, and
its linked name table whose content is two zero bytes (so offset 1 holds
an empty string). -/
def exSymRaw : List Nat :=
  [127, 69, 76, 70, 1, 1] ++ List.replicate 26 0 ++ [52, 0, 0, 0]
    ++ List.replicate 12 0 ++ [3, 0, 0, 0]
    ++ List.replicate 40 0
    ++ [0, 0, 0, 0, 2, 0, 0, 0] ++ List.replicate 8 0
    ++ [172, 0, 0, 0, 16, 0, 0, 0] ++ [2, 0, 0, 0] ++ List.replicate 12 0
    ++ [0, 0, 0, 0, 3, 0, 0, 0] ++ List.replicate 8 0
    ++ [188, 0, 0, 0, 2, 0, 0, 0] ++ List.replicate 16 0
    ++ [1, 0, 0, 0] ++ List.replicate 12 0
    ++ [0, 0]

/-- A 32-bit file (built directly) with a symbol table of one all-zero
record, linked to section 0 (itself) as the name table. -/
def exSym0File : ELF32File :=
  ⟨default, [⟨0, SymbolTableSection, 0, 0, 0, 16, 0, 0, 0, 0⟩], [],
    List.replicate 16 0, .le⟩

/-- The 64-bit analogue with one all-zero 24-byte symbol record. -/
def exSym0File64 : ELF64File :=
  ⟨default, [⟨0, SymbolTableSection, 0, 0, 0, 24, 0, 0, 0, 0⟩], [],
    List.replicate 24 0, .le⟩

/-- A 220-byte little-endian 32-bit ELF buffer with three sections: the
null section, a dynamic section whose table declares 2 version
requirements, and a version requirement section holding one Verneed
record (count 1, aux offset 16, next 0) and one Vernaux record. -/
def exVerRaw : List Nat :=
  [127, 69, 76, 70, 1, 1] ++ List.replicate 26 0 ++ [52, 0, 0, 0]
    ++ List.replicate 12 0 ++ [3, 0, 0, 0]
    ++ List.replicate 40 0
    ++ [0, 0, 0, 0, 6, 0, 0, 0] ++ List.replicate 8 0
    ++ [172, 0, 0, 0, 16, 0, 0, 0] ++ List.replicate 16 0
    ++ [0, 0, 0, 0, 254, 255, 255, 111] ++ List.replicate 8 0
    ++ [188, 0, 0, 0, 32, 0, 0, 0] ++ List.replicate 16 0
    ++ [255, 255, 255, 111, 2, 0, 0, 0] ++ List.replicate 8 0
    ++ [1, 0, 1, 0, 0, 0, 0, 0, 16, 0, 0, 0, 0, 0, 0, 0]
    ++ List.replicate 16 0

/-- The content of the version requirement section of the walk
counterexample file. -/
def exVerContent : List Nat :=
  [1, 0, 1, 0, 0, 0, 0, 0, 16, 0, 0, 0, 0, 0, 0, 0,
   0, 0, 0, 0, 0, 0, 0, 0, 0, 0, 0, 0, 0, 0, 0, 0]

/-!  ## Helper lemmas about buffers -/
/-- getD agrees with get on in-range indices. -/
theorem getD_eq_get (l : List Nat) (i : Nat) (h : i < l.length) :
    l.getD i 0 = l.get ⟨i, h⟩ := by
  simp [List.getD_eq_getElem?_getD, List.getElem?_eq_getElem h, List.get_eq_getElem]

/-- The budgeted scan finds no zero byte on zero-free suffixes. -/
theorem scanForZeroAux_eq_none (data : List Nat) (fuel : Nat) : ∀ i,
    (∀ k, k < data.length → i ≤ k → data.getD k 0 ≠ 0) →
    scanForZeroAux data i fuel = none := by
  induction fuel with
  | zero => intro i h; rfl
  | succ n ih =>
    intro i h
    rw [scanForZeroAux]
    split
    · next hlt =>
      rw [if_neg]
      · exact ih (i + 1) (fun k hk hik => h k hk (by omega))
      · have hi := h i hlt (le_refl i)
        rw [getD_eq_get data i hlt] at hi
        exact hi
    · rfl

/-- The scan finds no zero byte exactly on zero-free suffixes. -/
theorem scanForZero_eq_none (data : List Nat) (i : Nat)
    (h : ∀ k, k < data.length → i ≤ k → data.getD k 0 ≠ 0) :
    scanForZero data i = none :=
  scanForZeroAux_eq_none data (data.length - i) i h

/-- Inversion for a successful budgeted scan: the found index is in
range, at or after the start, and holds a zero byte. -/
theorem scanForZeroAux_some_inv (data : List Nat) (fuel : Nat) : ∀ i k,
    scanForZeroAux data i fuel = some k →
    i ≤ k ∧ k < data.length ∧ data.getD k 0 = 0 := by
  induction fuel with
  | zero => intro i k h; cases h
  | succ n ih =>
    intro i k h
    rw [scanForZeroAux] at h
    split at h
    · next hi =>
      split at h
      · next hz =>
        cases h
        exact ⟨le_refl _, hi, by rw [getD_eq_get data i hi]; exact hz⟩
      · next hz =>
        have hrec := ih (i + 1) k h
        exact ⟨by omega, hrec.2.1, hrec.2.2⟩
    · cases h

/-- Inversion for a successful scan. -/
theorem scanForZero_some_inv (data : List Nat) (i k : Nat)
    (h : scanForZero data i = some k) :
    i ≤ k ∧ k < data.length ∧ data.getD k 0 = 0 :=
  scanForZeroAux_some_inv data (data.length - i) i k h

/-- With enough budget the scan returns the least zero-byte position at
or after the start. -/
theorem scanForZeroAux_eq_some (data : List Nat) (fuel : Nat) : ∀ i k,
    i ≤ k → k < i + fuel → k < data.length → data.getD k 0 = 0 →
    (∀ j, j < k → i ≤ j → data.getD j 0 ≠ 0) →
    scanForZeroAux data i fuel = some k := by
  induction fuel with
  | zero => intro i k hik hfuel hk hzero hnz; omega
  | succ n ih =>
    intro i k hik hfuel hk hzero hnz
    have hi : i < data.length := by omega
    rw [scanForZeroAux, dif_pos hi]
    by_cases hc : data.get ⟨i, hi⟩ = 0
    · rw [if_pos hc]
      have hik2 : i = k := by
        by_contra hne
        exact hnz i (by omega) (le_refl i) (by rw [getD_eq_get data i hi]; exact hc)
      rw [hik2]
    · rw [if_neg hc]
      have hne : i ≠ k := by
        intro he
        apply hc
        rw [← getD_eq_get data i hi, he, hzero]
      exact ih (i + 1) k (by omega) (by omega) hk hzero
        (fun j hj hij => hnz j hj (by omega))

/-- The scan returns the least zero-byte position at or after the start. -/
theorem scanForZero_eq_some (data : List Nat) (i k : Nat)
    (hik : i ≤ k) (hk : k < data.length) (hzero : data.getD k 0 = 0)
    (hnz : ∀ j, j < k → i ≤ j → data.getD j 0 ≠ 0) :
    scanForZero data i = some k :=
  scanForZeroAux_eq_some data (data.length - i) i k hik (by omega) hk hzero hnz

/-!  ## Claim theorems for the utility functions -/
/-- Claim C5: ReadStringAtOffset fails with an invalid-offset error when
the offset is at or past the end of the buffer; fails with an
unterminated-string error when no zero byte occurs at or after the offset;
otherwise returns exactly the bytes from the offset up to (excluding) the
least zero-byte position k at or after it; and offset 0 yields a legal
empty string exactly when the buffer is nonempty and starts with a zero
byte. -/
theorem C5_readStringAtOffset (offset : Nat) (data : List Nat) :
    (data.length ≤ offset → ReadStringAtOffset offset data = .err .invalidStringOffset) ∧
    (offset < data.length →
      (∀ k, k < data.length → offset ≤ k → data.getD k 0 ≠ 0) →
      ReadStringAtOffset offset data = .err .unterminatedString) ∧
    (∀ k, k < data.length → offset ≤ k → data.getD k 0 = 0 →
      (∀ j, j < k → offset ≤ j → data.getD j 0 ≠ 0) →
      ReadStringAtOffset offset data = .ok (goSlice data offset k)) ∧
    (ReadStringAtOffset 0 data = .ok [] ↔ 0 < data.length ∧ data.getD 0 0 = 0) := by
  refine ⟨?_, ?_, ?_, ?_, ?_⟩
  · intro h
    rw [ReadStringAtOffset, if_pos (by omega)]
  · intro h1 h2
    rw [ReadStringAtOffset, if_neg (by omega), scanForZero_eq_none data offset h2]
  · intro k hk hok hz hnz
    rw [ReadStringAtOffset, if_neg (by omega),
      scanForZero_eq_some data offset k hok hk hz hnz]
  · intro h
    rw [ReadStringAtOffset] at h
    by_cases hlen : (0 : Nat) ≥ data.length
    · rw [if_pos hlen] at h; cases h
    · rw [if_neg hlen] at h
      refine ⟨by omega, ?_⟩
      cases hscan : scanForZero data 0 with
      | none => rw [hscan] at h; cases h
      | some k =>
        rw [hscan] at h
        have hinv := scanForZero_some_inv data 0 k hscan
        have hsl : goSlice data 0 k = [] := Res.ok.inj h
        rw [goSlice, List.drop_zero] at hsl
        have hk0 : k = 0 := by
          rcases List.take_eq_nil_iff.mp hsl with h0 | h0
          · exact h0
          · exact absurd hinv.2.1 (by rw [h0]; simp)
        rw [hk0] at hinv
        exact hinv.2.2
  · intro hc
    rw [ReadStringAtOffset, if_neg (by omega),
      scanForZero_eq_some data 0 0 (le_refl 0) (by omega) hc.2
        (fun j hj _ => absurd hj (by omega))]
    rfl

/-- Claim C9: ELF32Hash hashes exactly the bytes before the first zero
byte with the fold of the claim, starting from 0; the empty input hashes
to 0 and the bytes of the string Hi there lol hash to 0x086C29BC. -/
theorem C9_elf32Hash :
    (∀ xs ys, ELF32Hash (xs ++ 0 :: ys) = ELF32Hash xs) ∧
    (∀ data, ELF32Hash data =
      (data.takeWhile (fun c => c != 0)).foldl elf32HashStepSpec 0) ∧
    ELF32Hash [] = 0 ∧
    ELF32Hash [72, 105, 32, 116, 104, 101, 114, 101, 32, 108, 111, 108] = 0x086c29bc := by
  have hzero : ∀ xs ys h, ELF32HashLoop h (xs ++ 0 :: ys) = ELF32HashLoop h xs := by
    intro xs
    induction xs with
    | nil => intro ys h; simp [ELF32HashLoop]
    | cons c rest ih =>
      intro ys h
      by_cases hc : c = 0 <;> simp [ELF32HashLoop, hc, ih]
  have hfold : ∀ xs h, ELF32HashLoop h xs =
      (xs.takeWhile (fun c => c != 0)).foldl elf32HashStepSpec h := by
    intro xs
    induction xs with
    | nil => intro h; simp [ELF32HashLoop]
    | cons c rest ih =>
      intro h
      by_cases hc : c = 0
      · simp [ELF32HashLoop, hc]
      · simp only [ELF32HashLoop, if_neg hc, List.takeWhile_cons,
          show (c != 0) = true by simpa using hc, List.foldl_cons, ih]
        rfl
  exact ⟨fun xs ys => hzero xs ys 0, fun data => hfold data 0, by decide, by decide⟩

/-- Witness for claim C5 at the seed buffer: offsets 999, 15, 1 and 0
behave as the claim states. -/
theorem C5_readStringAtOffset_witness :
    ReadStringAtOffset 999 exStringTable = .err .invalidStringOffset ∧
    ReadStringAtOffset 15 exStringTable = .err .unterminatedString ∧
    ReadStringAtOffset 1 exStringTable = .ok [72, 105, 32, 116, 104, 101, 114, 101, 33] ∧
    ReadStringAtOffset 0 exStringTable = .ok [] := by
  refine ⟨(C5_readStringAtOffset 999 exStringTable).1 (by decide),
    (C5_readStringAtOffset 15 exStringTable).2.1 (by decide) (by decide),
    ?_,
    ((C5_readStringAtOffset 0 exStringTable).2.2.2).mpr (by decide)⟩
  have h := (C5_readStringAtOffset 1 exStringTable).2.2.1 10
    (by decide) (by decide) (by decide) (by decide)
  exact h.trans (by decide)

/-!  ## Bounds of the primitive reads -/
/-- Every byte fetched from a byte-valued buffer is below 256 (out of
range fetches default to 0). -/
theorem byteAt_lt (data : List Nat) (h : bytesOk data = true) (i : Nat) :
    byteAt data i < 256 := by
  rw [byteAt]
  rcases Nat.lt_or_ge i data.length with hi | hi
  · have hmem : data.getD i 0 ∈ data := by
      rw [getD_eq_get data i hi]
      exact List.get_mem data i hi
    simp only [bytesOk, List.all_eq_true, decide_eq_true_eq] at h
    exact h _ hmem
  · rw [List.getD_eq_getElem?_getD, List.getElem?_eq_none (by omega)]
    simp

/-- A 16-bit read of a byte-valued buffer is below 2 to the 16. -/
theorem readU16_lt (e : ByteOrder) (data : List Nat) (h : bytesOk data = true)
    (o : Nat) : readU16 e data o < 65536 := by
  cases e <;>
    · rw [readU16]
      have h1 := byteAt_lt data h o
      have h2 := byteAt_lt data h (o + 1)
      omega

/-- A 32-bit read of a byte-valued buffer is below 2 to the 32. -/
theorem readU32_lt (e : ByteOrder) (data : List Nat) (h : bytesOk data = true)
    (o : Nat) : readU32 e data o < 4294967296 := by
  have h1 := readU16_lt .le data h o
  have h2 := readU16_lt .le data h (o + 2)
  have h3 := readU16_lt .be data h o
  have h4 := readU16_lt .be data h (o + 2)
  cases e <;>
    · rw [readU32]
      omega

/-- Byte-valuedness is inherited by Go subslices. -/
theorem bytesOk_goSlice (data : List Nat) (h : bytesOk data = true) (a b : Nat) :
    bytesOk (goSlice data a b) = true := by
  simp only [bytesOk, goSlice, List.all_eq_true, decide_eq_true_eq] at h ⊢
  intro x hx
  exact h x (List.drop_subset a data (List.take_subset _ _ hx))

/-!  ## Inversion of a successful section content fetch -/
/-- A successful ELF32File.GetSectionContent implies the index is in
range, both bounds fit the buffer, and the result is the corresponding
subslice of the raw buffer. -/
theorem ELF32File.getSectionContent_ok_inv (f : ELF32File) (i : Nat) (c : List Nat)
    (h : f.GetSectionContent i = .ok c) :
    i < f.Sections.length ∧
    (f.Sections.getD i default).FileOffset ≤ f.Raw.length ∧
    ((f.Sections.getD i default).FileOffset
        + (f.Sections.getD i default).Size) % 4294967296 ≤ f.Raw.length ∧
    (f.Sections.getD i default).FileOffset ≤
      ((f.Sections.getD i default).FileOffset
        + (f.Sections.getD i default).Size) % 4294967296 ∧
    c = goSlice f.Raw (f.Sections.getD i default).FileOffset
      (((f.Sections.getD i default).FileOffset
        + (f.Sections.getD i default).Size) % 4294967296) := by
  simp only [ELF32File.GetSectionContent] at h
  split at h
  · cases h
  · next h1 =>
    split at h
    · cases h
    · next h2 =>
      split at h
      · cases h
      · next h3 =>
        split at h
        · cases h
        · next h4 =>
          exact ⟨by omega, by omega, by omega, by omega, (Res.ok.inj h).symm⟩

/-- The content returned for a section of a byte-valued file is itself
byte-valued. -/
theorem ELF32File.getSectionContent_ok_bytesOk (f : ELF32File) (i : Nat)
    (c : List Nat) (hb : bytesOk f.Raw = true) (h : f.GetSectionContent i = .ok c) :
    bytesOk c = true := by
  have hinv := f.getSectionContent_ok_inv i c h
  rw [hinv.2.2.2.2]
  exact bytesOk_goSlice f.Raw hb _ _

/-!  ## The 64-bit repacking of a 32-bit info word -/
/-- Packing a 32-bit value t and a 32-bit value s as t OR (s shifted left
by 32) makes them recoverable with the 64-bit extraction rules. -/
theorem repack_extract (t s : Nat) (ht : t < 4294967296) (hs : s < 4294967296) :
    (t ||| (s <<< 32)) &&& 0xffffffff = t ∧
    ((t ||| (s <<< 32)) >>> 32) % 4294967296 = s := by
  have hpow : (2 : Nat) ^ 32 = 4294967296 := by norm_num
  have hval : t ||| (s <<< 32) = 4294967296 * s + t := by
    rw [Nat.shiftLeft_eq, hpow, Nat.mul_comm s 4294967296, Nat.lor_comm,
      ← hpow, ← Nat.mul_add_lt_is_or (by omega) s, hpow]
  constructor
  · have hmask : (0xffffffff : Nat) = 2 ^ 32 - 1 := by norm_num
    rw [hval, hmask, Nat.and_pow_two_sub_one_eq_mod, hpow]
    omega
  · rw [hval, Nat.shiftRight_eq_div_pow, hpow]
    omega

/-- The facade conversion of a single 32-bit relocation preserves the
decomposition of the info word and the promoted offset and addend. -/
theorem convertELF32Relocation_spec (r : ELF32Relocation)
    (hinfo : r.InfoWord < 4294967296) :
    ELF64RelocationInfoType (convertELF32Relocation r).RelocationInfo =
      ELF32RelocationInfoType r.InfoWord ∧
    ELF64RelocationInfoSymbolIndex (convertELF32Relocation r).RelocationInfo =
      ELF32RelocationInfoSymbolIndex r.InfoWord ∧
    (convertELF32Relocation r).Address = r.Offset ∧
    (convertELF32Relocation r).AddendValue = r.Addend := by
  have ht : ELF32RelocationInfoType r.InfoWord < 4294967296 := by
    rw [ELF32RelocationInfoType]; omega
  have hs : ELF32RelocationInfoSymbolIndex r.InfoWord < 4294967296 := by
    rw [ELF32RelocationInfoSymbolIndex, Nat.shiftRight_eq_div_pow]
    have := Nat.div_le_self r.InfoWord (2 ^ 8)
    omega
  have hre := repack_extract (ELF32RelocationInfoType r.InfoWord)
    (ELF32RelocationInfoSymbolIndex r.InfoWord) ht hs
  exact ⟨hre.1, hre.2, rfl, rfl⟩

/-- Claim C1: every 32-bit relocation surfaced through the unified facade
GetRelocations has its info word re-packed into the 64-bit layout so that
the 64-bit type and symbol index extraction return exactly the type and
symbol index of the original 32-bit info word, and the offset and addend
are the width-promoted originals. -/
theorem C1_relocations (f : ELF32File) (index : Nat)
    (table32 : List ELF32Relocation)
    (hb : bytesOk f.Raw = true)
    (h : f.GetRelocationTable index = .ok table32) :
    f.GetRelocations index = .ok (table32.map convertELF32Relocation) ∧
    ∀ r ∈ table32,
      ELF64RelocationInfoType (convertELF32Relocation r).RelocationInfo =
        ELF32RelocationInfoType r.InfoWord ∧
      ELF64RelocationInfoSymbolIndex (convertELF32Relocation r).RelocationInfo =
        ELF32RelocationInfoSymbolIndex r.InfoWord ∧
      (convertELF32Relocation r).Address = r.Offset ∧
      (convertELF32Relocation r).AddendValue = r.Addend := by
  constructor
  · rw [ELF32File.GetRelocations, h]
  · intro r hr
    have hinfo : r.InfoWord < 4294967296 := by
      by_cases h0 : f.IsRelocationTable index = false
      · rw [ELF32File.GetRelocationTable, if_pos h0] at h
        cases h
      · cases hcc : f.GetSectionContent index with
        | err k =>
          rw [ELF32File.GetRelocationTable, if_neg h0] at h
          simp only [hcc] at h
          cases h
        | goPanic =>
          rw [ELF32File.GetRelocationTable, if_neg h0] at h
          simp only [hcc] at h
          cases h
        | ok content =>
          have hcb : bytesOk content = true :=
            f.getSectionContent_ok_bytesOk index content hb hcc
          rw [ELF32File.GetRelocationTable, if_neg h0] at h
          simp only [hcc] at h
          by_cases hty : (f.Sections.getD index default).Typ = RelaSection
          · rw [if_pos hty] at h
            by_cases hlen :
                content.length < (f.Sections.getD index default).Size / 12 * 12
            · rw [if_pos hlen] at h
              cases h
            · rw [if_neg hlen] at h
              rw [(Res.ok.inj h).symm] at hr
              obtain ⟨i, hi, hri⟩ := List.mem_map.mp hr
              rw [← hri]
              exact readU32_lt _ content hcb _
          · rw [if_neg hty] at h
            by_cases hlen :
                content.length < (f.Sections.getD index default).Size / 8 * 8
            · rw [if_pos hlen] at h
              cases h
            · rw [if_neg hlen] at h
              rw [(Res.ok.inj h).symm] at hr
              obtain ⟨i, hi, hri⟩ := List.mem_map.mp hr
              rw [← hri]
              exact readU32_lt _ content hcb _
    exact convertELF32Relocation_spec r hinfo

/-- Witness for claim C1 at a concrete relocation: the facade repacks the
info word 0x121 into 0x100000021, from which the 64-bit extraction rules
recover type 0x21 and symbol index 1, exactly the 32-bit extraction of
0x121. -/
theorem C1_relocations_witness :
    exRelFile.GetRelocations 0 = .ok [⟨0, 4294967329, 0⟩] ∧
    ELF64RelocationInfoType 4294967329 = ELF32RelocationInfoType 289 ∧
    ELF64RelocationInfoSymbolIndex 4294967329 = ELF32RelocationInfoSymbolIndex 289 := by
  have h := C1_relocations exRelFile 0 [ELF32Relocation.rel ⟨0, 289⟩]
    (by decide) (by decide)
  exact ⟨h.1.trans (by decide), by decide, by decide⟩

/-- Claim C10: for every index at or past the number of sections, the
type predicates of both widths are total, never fail, and return false
without touching the section header array (the cited predicates: the four
32-bit ones and the 64-bit string table and symbol table predicates). -/
theorem C10_typePredicates (f32 : ELF32File) (f64 : ELF64File) (i j : Nat)
    (h32 : f32.Sections.length ≤ i) (h64 : f64.Sections.length ≤ j) :
    f32.IsStringTable i = false ∧
    f32.IsSymbolTable i = false ∧
    f32.IsRelocationTable i = false ∧
    f32.IsDynamicSection i = false ∧
    f64.IsStringTable j = false ∧
    f64.IsSymbolTable j = false := by
  refine ⟨?_, ?_, ?_, ?_, ?_, ?_⟩ <;>
    simp only [ELF32File.IsStringTable, ELF32File.IsSymbolTable,
      ELF32File.IsRelocationTable, ELF32File.IsDynamicSection,
      ELF64File.IsStringTable, ELF64File.IsSymbolTable] <;>
    rw [if_pos (by omega)]

/-- Witness for claim C10 at concrete files: the default (empty) parsed
files of both widths, with index 0, make every predicate false. -/
theorem C10_typePredicates_witness :
    (default : ELF32File).IsStringTable 0 = false ∧
    (default : ELF32File).IsSymbolTable 0 = false ∧
    (default : ELF32File).IsRelocationTable 0 = false ∧
    (default : ELF32File).IsDynamicSection 0 = false ∧
    (default : ELF64File).IsStringTable 0 = false ∧
    (default : ELF64File).IsSymbolTable 0 = false :=
  C10_typePredicates default default 0 0 (by decide) (by decide)

/-!  ## Claims C2 and C3 -/
/-- Claim C2 (failing evaluation): on a 64-byte buffer whose first word
is not the ELF magic, ParseELF32File fails with the bad-signature error
as the claim states, but ParseELF64File succeeds (its re-parse never
compares the signature), contradicting the claim for the 64-bit entry
point. -/
theorem C2_badSignature :
    readU32 .le exBad64 0 ≠ 0x464c457f ∧
    ParseELF32File exBad64 = .err .badSignature ∧
    (ParseELF64File exBad64).isOkB = true := by
  refine ⟨by decide, by decide, by decide⟩

/-- Claim C3 (failing evaluation): on the minimal parsed 32-bit file with
zero segments, the section content accessor rejects index 0 with an
invalid-index error as the claim states, but the segment content
accessor, whose index guard uses strictly-greater, passes index 0 and
aborts on the out-of-range array access instead of returning the error. -/
theorem C3_segmentContentPanic :
    (ParseELF32File exMin32).isOkB = true ∧
    ((ParseELF32File exMin32).getOk default).Segments.length = 0 ∧
    ((ParseELF32File exMin32).getOk default).GetSegmentContent 0 = .goPanic ∧
    ((ParseELF32File exMin32).getOk default).GetSectionContent 0 = .err .invalidIndex := by
  refine ⟨by decide, by decide, by decide, by decide⟩

/-!  ## Claim C6: dynamic tables -/
/-- Claim C6: for a dynamic linking section whose content was fetched
successfully, GetDynamicTable of either width returns exactly
size-divided-by-entry-size entries, decoded at fixed stride in file
order, with no truncation at a terminator entry of tag 0. -/
theorem C6_dynamicTable :
    (∀ (f : ELF32File) (i : Nat) (c : List Nat) (entries : List ELF32DynamicEntry),
      f.GetSectionContent i = .ok c →
      f.GetDynamicTable i = .ok entries →
      entries.length = (f.Sections.getD i default).Size / 8 ∧
      entries = (List.range ((f.Sections.getD i default).Size / 8)).map
        (fun j => decodeELF32DynamicEntry f.Endianness c (8 * j))) ∧
    (∀ (f : ELF64File) (i : Nat) (c : List Nat) (entries : List ELF64DynamicEntry),
      f.GetSectionContent i = .ok c →
      f.GetDynamicTable i = .ok entries →
      entries.length = (f.Sections.getD i default).Size / 16 ∧
      entries = (List.range ((f.Sections.getD i default).Size / 16)).map
        (fun j => decodeELF64DynamicEntry f.Endianness c (16 * j))) := by
  constructor
  · intro f i c entries hc h
    by_cases h0 : f.IsDynamicSection i = false
    · rw [ELF32File.GetDynamicTable, if_pos h0] at h
      cases h
    · rw [ELF32File.GetDynamicTable, if_neg h0] at h
      simp only [hc] at h
      by_cases hlen : c.length < (f.Sections.getD i default).Size / 8 * 8
      · rw [if_pos hlen] at h
        cases h
      · rw [if_neg hlen] at h
        have he := (Res.ok.inj h).symm
        exact ⟨by rw [he]; simp, he⟩
  · intro f i c entries hc h
    by_cases h0 : f.IsDynamicSection i = false
    · rw [ELF64File.GetDynamicTable, if_pos h0] at h
      cases h
    · rw [ELF64File.GetDynamicTable, if_neg h0] at h
      simp only [hc] at h
      by_cases hlen : c.length < (f.Sections.getD i default).Size / 16 * 16
      · rw [if_pos hlen] at h
        cases h
      · rw [if_neg hlen] at h
        have he := (Res.ok.inj h).symm
        exact ⟨by rw [he]; simp, he⟩

/-- Witness for claim C6 at concrete files of both widths whose dynamic
sections start with a terminator entry: both entries are returned (no
truncation at tag 0) and the count matches size over entry size. -/
theorem C6_dynamicTable_witness :
    exDynFile32.GetDynamicTable 0 = .ok [⟨0, 5⟩, ⟨21, 7⟩] ∧
    ([(⟨0, 5⟩ : ELF32DynamicEntry), ⟨21, 7⟩]).length =
      (exDynFile32.Sections.getD 0 default).Size / 8 ∧
    exDynFile64.GetDynamicTable 0 = .ok [⟨0, 5⟩, ⟨1, 9⟩] ∧
    ([(⟨0, 5⟩ : ELF64DynamicEntry), ⟨1, 9⟩]).length =
      (exDynFile64.Sections.getD 0 default).Size / 16 := by
  have h32 := C6_dynamicTable.1 exDynFile32 0 exDynFile32.Raw
    [⟨0, 5⟩, ⟨21, 7⟩] (by decide) (by decide)
  have h64 := C6_dynamicTable.2 exDynFile64 0 exDynFile64.Raw
    [⟨0, 5⟩, ⟨1, 9⟩] (by decide) (by decide)
  exact ⟨by decide, h32.1, by decide, h64.1⟩

/-!  ## Claim C7: string tables -/
/-- The zero-byte split never returns an empty list of chunks. -/
theorem splitOnZero_ne_nil (l : List Nat) : splitOnZero l ≠ [] := by
  cases l with
  | nil => simp [splitOnZero]
  | cons b rest =>
    rw [splitOnZero]
    by_cases hb : b = 0
    · simp [hb]
    · rw [if_neg hb]
      cases h : splitOnZero rest <;> simp

/-- When a buffer starts with a zero byte, splitting everything but its
last byte on zero bytes yields an empty first chunk. -/
theorem splitOnZero_dropLast_head (c : List Nat) (h0 : c.headD 1 = 0) :
    (splitOnZero c.dropLast).headD [1] = [] := by
  cases c with
  | nil => simp at h0
  | cons b rest =>
    simp only [List.headD_cons] at h0
    cases rest with
    | nil => simp [splitOnZero]
    | cons x xs =>
      rw [show (b :: x :: xs).dropLast = b :: (x :: xs).dropLast from rfl, h0]
      simp [splitOnZero]

/-- Claim C7 (amended): for a string table section whose content was
fetched, a nonzero final byte yields the unterminated-table error; a zero
final byte yields the content without that byte split on zero bytes, a
sequence that is never empty and whose first element is the empty string
whenever the first content byte is zero (the source never checks the
first byte, so a table that does not start with a zero byte yields a
nonempty first element). -/
theorem C7_stringTable_amended :
    (∀ (f : ELF32File) (i : Nat) (c : List Nat),
      f.IsStringTable i = true →
      f.GetSectionContent i = .ok c →
      (∀ b, c.getLast? = some b → b ≠ 0 →
        f.GetStringTable i = .err .unterminatedTable) ∧
      (c.getLast? = some 0 →
        f.GetStringTable i = .ok (splitOnZero c.dropLast) ∧
        splitOnZero c.dropLast ≠ [] ∧
        (c.headD 1 = 0 → (splitOnZero c.dropLast).headD [1] = []))) ∧
    (∀ (f : ELF64File) (i : Nat) (c : List Nat),
      f.IsStringTable i = true →
      f.GetSectionContent i = .ok c →
      (∀ b, c.getLast? = some b → b ≠ 0 →
        f.GetStringTable i = .err .unterminatedTable) ∧
      (c.getLast? = some 0 →
        f.GetStringTable i = .ok (splitOnZero c.dropLast) ∧
        splitOnZero c.dropLast ≠ [] ∧
        (c.headD 1 = 0 → (splitOnZero c.dropLast).headD [1] = []))) := by
  constructor
  · intro f i c hst hc
    constructor
    · intro b hb hbne
      rw [ELF32File.GetStringTable, if_neg (by rw [hst]; simp)]
      simp only [hc, hb]
      rw [if_pos hbne]
    · intro hb
      refine ⟨?_, splitOnZero_ne_nil _, splitOnZero_dropLast_head c⟩
      rw [ELF32File.GetStringTable, if_neg (by rw [hst]; simp)]
      simp only [hc, hb]
      rw [if_neg (by simp)]
  · intro f i c hst hc
    constructor
    · intro b hb hbne
      rw [ELF64File.GetStringTable, if_neg (by rw [hst]; simp)]
      simp only [hc, hb]
      rw [if_pos hbne]
    · intro hb
      refine ⟨?_, splitOnZero_ne_nil _, splitOnZero_dropLast_head c⟩
      rw [ELF64File.GetStringTable, if_neg (by rw [hst]; simp)]
      simp only [hc, hb]
      rw [if_neg (by simp)]

/-- Counterexample for claim C7 as stated: a parsed 32-bit file whose
string table content is 97 98 0 (no leading zero byte) makes
GetStringTable succeed with the single chunk ab, whose first element is
not the empty string. -/
theorem C7_stringTable_counterexample :
    (ParseELF32File exStrRaw).isOkB = true ∧
    ((ParseELF32File exStrRaw).getOk default).GetStringTable 1 = .ok [[97, 98]] ∧
    ([[97, 98]] : List (List Nat)).headD [] ≠ [] := by
  refine ⟨by decide, by decide, by decide⟩

/-- Witness for the amended claim C7 at the parsed 32-bit file and at a
64-bit file whose table starts with a zero byte (there the first chunk is
empty). -/
theorem C7_stringTable_witness :
    ((ParseELF32File exStrRaw).getOk default).GetStringTable 1 = .ok [[97, 98]] ∧
    exStrFile64.GetStringTable 0 = .ok [[], [97]] ∧
    ([[], [97]] : List (List Nat)).headD [1] = [] := by
  have h32 := (C7_stringTable_amended.1 ((ParseELF32File exStrRaw).getOk default) 1
    [97, 98, 0] (by decide) (by decide)).2 (by decide)
  have h64 := (C7_stringTable_amended.2 exStrFile64 0
    [0, 97, 0] (by decide) (by decide)).2 (by decide)
  exact ⟨h32.1.trans (by decide), h64.1.trans (by decide), by decide⟩

/-!  ## Claim C8: symbol tables -/
/-- On success the name-resolving loop yields one name per offset. -/
theorem buildSymbolNames_ok_length (nt : List Nat) (offsets : List Nat)
    (names : List (List Nat)) (h : buildSymbolNames nt offsets = .ok names) :
    names.length = offsets.length := by
  induction offsets generalizing names with
  | nil =>
    rw [buildSymbolNames] at h
    cases h
    rfl
  | cons o rest ih =>
    rw [buildSymbolNames] at h
    by_cases ho : o = 0
    · rw [if_pos ho] at h
      cases hr : buildSymbolNames nt rest with
      | ok ns =>
        simp only [hr] at h
        cases h
        simp [ih ns hr]
      | err k => simp only [hr] at h; cases h
      | goPanic => simp only [hr] at h; cases h
    · rw [if_neg ho] at h
      cases hs : ReadStringAtOffset o nt with
      | ok s =>
        simp only [hs] at h
        cases hr : buildSymbolNames nt rest with
        | ok ns =>
          simp only [hr] at h
          cases h
          simp [ih ns hr]
        | err k => simp only [hr] at h; cases h
        | goPanic => simp only [hr] at h; cases h
      | err k => simp only [hs] at h; cases h
      | goPanic => simp only [hs] at h; cases h

/-- On success, a zero name offset always resolves to the empty name. -/
theorem buildSymbolNames_ok_zero (nt : List Nat) (offsets : List Nat)
    (names : List (List Nat)) (h : buildSymbolNames nt offsets = .ok names) :
    ∀ j, j < offsets.length → offsets.getD j 1 = 0 → names.getD j [1] = [] := by
  induction offsets generalizing names with
  | nil =>
    intro j hj
    simp at hj
  | cons o rest ih =>
    intro j hj hoz
    rw [buildSymbolNames] at h
    by_cases ho : o = 0
    · rw [if_pos ho] at h
      cases hr : buildSymbolNames nt rest with
      | ok ns =>
        simp only [hr] at h
        cases h
        cases j with
        | zero => rfl
        | succ jj =>
          exact ih ns hr jj (by simpa using hj) (by simpa using hoz)
      | err k => simp only [hr] at h; cases h
      | goPanic => simp only [hr] at h; cases h
    · rw [if_neg ho] at h
      cases hs : ReadStringAtOffset o nt with
      | ok s =>
        simp only [hs] at h
        cases hr : buildSymbolNames nt rest with
        | ok ns =>
          simp only [hr] at h
          cases h
          cases j with
          | zero =>
            simp only [List.getD_cons_zero] at hoz
            exact absurd hoz ho
          | succ jj =>
            exact ih ns hr jj (by simpa using hj) (by simpa using hoz)
        | err k => simp only [hr] at h; cases h
        | goPanic => simp only [hr] at h; cases h
      | err k => simp only [hs] at h; cases h
      | goPanic => simp only [hs] at h; cases h

/-- getD through a map, on an in-range index. -/
theorem getD_map_fn {α : Type} (g : α → Nat) (l : List α) (j : Nat)
    (hj : j < l.length) :
    (l.map g).getD j 1 = g (l.get ⟨j, hj⟩) := by
  rw [List.getD_eq_getElem?_getD, List.getElem?_map, List.getElem?_eq_getElem hj]
  simp [List.get_eq_getElem]

/-- Claim C8 (amended): for a successfully parsed symbol table of either
width the symbol and name slices have the same length, equal to the
section size divided by the record size, and every symbol with name
offset 0 has the empty name.  The converse of the last point fails in the
source (a nonzero offset can resolve to an empty string); the stated
direction is what holds. -/
theorem C8_symbolTable_amended :
    (∀ (f : ELF32File) (i : Nat) (syms : List ELF32Symbol) (names : List (List Nat)),
      f.GetSymbolTable i = .ok (syms, names) →
      syms.length = (f.Sections.getD i default).Size / 16 ∧
      names.length = syms.length ∧
      ∀ j (hj : j < syms.length), (syms.get ⟨j, hj⟩).Name = 0 →
        names.getD j [1] = []) ∧
    (∀ (f : ELF64File) (i : Nat) (syms : List ELF64Symbol) (names : List (List Nat)),
      f.GetSymbolTable i = .ok (syms, names) →
      syms.length = (f.Sections.getD i default).Size / 24 ∧
      names.length = syms.length ∧
      ∀ j (hj : j < syms.length), (syms.get ⟨j, hj⟩).Name = 0 →
        names.getD j [1] = []) := by
  constructor
  · intro f i syms names h
    by_cases h0 : f.IsSymbolTable i = false
    · rw [ELF32File.GetSymbolTable, if_pos h0] at h
      cases h
    · rw [ELF32File.GetSymbolTable, if_neg h0] at h
      cases hc : f.GetSectionContent i with
      | err k => simp only [hc] at h; cases h
      | goPanic => simp only [hc] at h; cases h
      | ok content =>
        simp only [hc] at h
        cases hnt : f.GetSectionContent
            ((f.Sections.getD i default).LinkedIndex % 65536) with
        | err k => simp only [hnt] at h; cases h
        | goPanic => simp only [hnt] at h; cases h
        | ok nameTable =>
          simp only [hnt] at h
          by_cases hlen :
              content.length < (f.Sections.getD i default).Size / 16 * 16
          · rw [if_pos hlen] at h
            cases h
          · rw [if_neg hlen] at h
            cases hb : buildSymbolNames nameTable
                (((List.range ((f.Sections.getD i default).Size / 16)).map
                  (fun k => decodeELF32Symbol f.Endianness content (16 * k))).map
                  (fun s => s.Name)) with
            | err k => simp only [hb] at h; cases h
            | goPanic => simp only [hb] at h; cases h
            | ok ns =>
              simp only [hb] at h
              have hpair := Res.ok.inj h
              injection hpair with hsyms0 hnames0
              subst hsyms0
              subst hnames0
              have hl := buildSymbolNames_ok_length _ _ _ hb
              refine ⟨by simp, ?_, ?_⟩
              · rw [hl]
                simp
              · intro j hj hname
                apply buildSymbolNames_ok_zero _ _ _ hb j
                · simpa using hj
                · rw [getD_map_fn _ _ j hj]
                  exact hname
  · intro f i syms names h
    by_cases h0 : f.IsSymbolTable i = false
    · rw [ELF64File.GetSymbolTable, if_pos h0] at h
      cases h
    · rw [ELF64File.GetSymbolTable, if_neg h0] at h
      cases hc : f.GetSectionContent i with
      | err k => simp only [hc] at h; cases h
      | goPanic => simp only [hc] at h; cases h
      | ok content =>
        simp only [hc] at h
        cases hnt : f.GetSectionContent
            ((f.Sections.getD i default).LinkedIndex % 65536) with
        | err k => simp only [hnt] at h; cases h
        | goPanic => simp only [hnt] at h; cases h
        | ok nameTable =>
          simp only [hnt] at h
          by_cases hlen :
              content.length < (f.Sections.getD i default).Size / 24 * 24
          · rw [if_pos hlen] at h
            cases h
          · rw [if_neg hlen] at h
            cases hb : buildSymbolNames nameTable
                (((List.range ((f.Sections.getD i default).Size / 24)).map
                  (fun k => decodeELF64Symbol f.Endianness content (24 * k))).map
                  (fun s => s.Name)) with
            | err k => simp only [hb] at h; cases h
            | goPanic => simp only [hb] at h; cases h
            | ok ns =>
              simp only [hb] at h
              have hpair := Res.ok.inj h
              injection hpair with hsyms0 hnames0
              subst hsyms0
              subst hnames0
              have hl := buildSymbolNames_ok_length _ _ _ hb
              refine ⟨by simp, ?_, ?_⟩
              · rw [hl]
                simp
              · intro j hj hname
                apply buildSymbolNames_ok_zero _ _ _ hb j
                · simpa using hj
                · rw [getD_map_fn _ _ j hj]
                  exact hname

/-- Counterexample for claim C8 as stated: a parsed 32-bit file whose one
symbol has name offset 1 pointing at a zero byte of the name table gets
the empty name, so names can be empty with a nonzero name offset and the
claimed equivalence fails in one direction. -/
theorem C8_symbolTable_counterexample :
    (ParseELF32File exSymRaw).isOkB = true ∧
    ((ParseELF32File exSymRaw).getOk default).GetSymbolTable 1 =
      .ok ([⟨1, 0, 0, 0, 0, 0⟩], [[]]) ∧
    (1 : Nat) ≠ 0 := by
  refine ⟨by decide, by decide, by decide⟩

/-- Witness for the amended claim C8 at concrete files of both widths
with one all-zero symbol record: the lengths agree with size over record
size and the zero name offset yields the empty name. -/
theorem C8_symbolTable_witness :
    exSym0File.GetSymbolTable 0 = .ok ([⟨0, 0, 0, 0, 0, 0⟩], [[]]) ∧
    ([(⟨0, 0, 0, 0, 0, 0⟩ : ELF32Symbol)]).length =
      (exSym0File.Sections.getD 0 default).Size / 16 ∧
    ([[]] : List (List Nat)).getD 0 [1] = [] ∧
    exSym0File64.GetSymbolTable 0 = .ok ([⟨0, 0, 0, 0, 0, 0⟩], [[]]) ∧
    ([(⟨0, 0, 0, 0, 0, 0⟩ : ELF64Symbol)]).length =
      (exSym0File64.Sections.getD 0 default).Size / 24 := by
  have h32 := C8_symbolTable_amended.1 exSym0File 0 [⟨0, 0, 0, 0, 0, 0⟩] [[]]
    (by decide)
  have h64 := C8_symbolTable_amended.2 exSym0File64 0 [⟨0, 0, 0, 0, 0, 0⟩] [[]]
    (by decide)
  exact ⟨by decide, h32.1, h32.2.2 0 (by decide) (by decide), by decide, h64.1⟩

/-!  ## Claim C4: the version requirement walk -/
/-- A successful aux chain walk yields exactly count records; each was
read at the recorded offset, the first offset is the chain start, and
each successive offset is the previous record start plus its Next field. -/
theorem parseVersionNeedAuxLoop_ok (e : ByteOrder) (c : List Nat) :
    ∀ (count pos : Nat) (auxes : List ELF32VersionNeedAux) (offs : List Nat),
    parseVersionNeedAuxLoop e c pos count = .ok (auxes, offs) →
    auxes.length = count ∧ offs.length = count ∧
    (0 < count → offs.getD 0 0 = pos) ∧
    (∀ m, m + 1 < count →
      offs.getD (m + 1) 0 = offs.getD m 0 + (auxes.getD m default).Next) ∧
    (∀ m, m < count →
      readVersionNeedAuxAt e c (offs.getD m 0) = some (auxes.getD m default)) := by
  intro count
  induction count with
  | zero =>
    intro pos auxes offs h
    rw [parseVersionNeedAuxLoop] at h
    have hinj := Res.ok.inj h
    injection hinj with h1 h2
    subst h1
    subst h2
    exact ⟨rfl, rfl, by omega, by omega, by omega⟩
  | succ nn ih =>
    intro pos auxes offs h
    rw [parseVersionNeedAuxLoop] at h
    cases hr : readVersionNeedAuxAt e c pos with
    | none =>
      simp only [hr] at h
      cases h
    | some a =>
      simp only [hr] at h
      cases hrec : parseVersionNeedAuxLoop e c (pos + a.Next) nn with
      | err k => simp only [hrec] at h; cases h
      | goPanic => simp only [hrec] at h; cases h
      | ok p =>
        obtain ⟨rest, restOffs⟩ := p
        simp only [hrec] at h
        have hinj := Res.ok.inj h
        injection hinj with h1 h2
        subst h1
        subst h2
        obtain ⟨ihl, ihol, ihfirst, ihchain, ihdec⟩ :=
          ih (pos + a.Next) rest restOffs hrec
        refine ⟨by simp [ihl], by simp [ihol], fun _ => rfl, ?_, ?_⟩
        · intro m hm
          cases m with
          | zero =>
            simp only [List.getD_cons_succ, List.getD_cons_zero]
            exact ihfirst (by omega)
          | succ mm =>
            simp only [List.getD_cons_succ]
            exact ihchain mm (by omega)
        · intro m hm
          cases m with
          | zero =>
            simp only [List.getD_cons_zero]
            exact hr
          | succ mm =>
            simp only [List.getD_cons_succ]
            exact ihdec mm (by omega)

/-- A successful main chain walk yields exactly the requested number of
Verneed records with their aux chains; each was read at the recorded
offset, the first offset is the walk start, each successive offset is the
previous record start plus its Next field, and each aux chain was walked
from the start of that record plus its AuxOffset field with its Count
records. -/
theorem parseVersionNeedLoop_ok (e : ByteOrder) (c : List Nat) :
    ∀ (n pos : Nat) (needs : List ELF32VersionNeed)
      (auxData : List (List ELF32VersionNeedAux × List Nat)) (offs : List Nat),
    parseVersionNeedLoop e c pos n = .ok (needs, auxData, offs) →
    needs.length = n ∧ auxData.length = n ∧ offs.length = n ∧
    (0 < n → offs.getD 0 0 = pos) ∧
    (∀ m, m + 1 < n →
      offs.getD (m + 1) 0 = offs.getD m 0 + (needs.getD m default).Next) ∧
    (∀ m, m < n →
      readVersionNeedAt e c (offs.getD m 0) = some (needs.getD m default) ∧
      parseVersionNeedAux e c (offs.getD m 0 + (needs.getD m default).AuxOffset)
        (needs.getD m default).Count = .ok (auxData.getD m default)) := by
  intro n
  induction n with
  | zero =>
    intro pos needs auxData offs h
    rw [parseVersionNeedLoop] at h
    have hinj := Res.ok.inj h
    injection hinj with h1 h23
    injection h23 with h2 h3
    subst h1
    subst h2
    subst h3
    exact ⟨rfl, rfl, rfl, by omega, by omega, by omega⟩
  | succ nn ih =>
    intro pos needs auxData offs h
    rw [parseVersionNeedLoop] at h
    cases hr : readVersionNeedAt e c pos with
    | none =>
      simp only [hr] at h
      cases h
    | some v =>
      simp only [hr] at h
      cases haux : parseVersionNeedAux e c (pos + v.AuxOffset) v.Count with
      | err k => simp only [haux] at h; cases h
      | goPanic => simp only [haux] at h; cases h
      | ok aux =>
        simp only [haux] at h
        cases hrec : parseVersionNeedLoop e c (pos + v.Next) nn with
        | err k => simp only [hrec] at h; cases h
        | goPanic => simp only [hrec] at h; cases h
        | ok p =>
          obtain ⟨ns, as_, os⟩ := p
          simp only [hrec] at h
          have hinj := Res.ok.inj h
          injection hinj with h1 h23
          injection h23 with h2 h3
          subst h1
          subst h2
          subst h3
          obtain ⟨ihl, ihal, ihol, ihfirst, ihchain, ihstep⟩ :=
            ih (pos + v.Next) ns as_ os hrec
          refine ⟨by simp [ihl], by simp [ihal], by simp [ihol],
            fun _ => rfl, ?_, ?_⟩
          · intro m hm
            cases m with
            | zero =>
              simp only [List.getD_cons_succ, List.getD_cons_zero]
              exact ihfirst (by omega)
            | succ mm =>
              simp only [List.getD_cons_succ]
              exact ihchain mm (by omega)
          · intro m hm
            cases m with
            | zero =>
              simp only [List.getD_cons_zero]
              exact ⟨hr, haux⟩
            | succ mm =>
              simp only [List.getD_cons_succ]
              exact ihstep mm (by omega)

/-- Claim C4 (amended): for a version requirement section with fetched
content and a declared requirement count n from the dynamic table, a
count of 0 gives an empty result with no error; a successful walk with
n positive returns exactly n Verneed records, each paired with exactly
its Count aux records; the walk starts at offset 0, locates each
successive main record at the start of the current record plus its Next
field and each successive aux record at the start of the current aux record
plus its
Next field (self-relative offsets).  The walk performs no revisit
detection: on malformed chains (for example Next 0 with n at least 2) it
re-enters previously visited offsets, so the visited offsets need not be
distinct. -/
theorem C4_versionRequirements (f : ELF32File) (i n : Nat) (c : List Nat)
    (hty : f.IsVersionRequirementSection i = true)
    (hc : f.GetSectionContent i = .ok c)
    (hn : f.getVersionDependencyTableSize = .ok n) :
    (n = 0 → f.ParseVersionRequirementSection i = .ok ([], [], [])) ∧
    (∀ needs auxData offs,
      f.ParseVersionRequirementSection i = .ok (needs, auxData, offs) →
      needs.length = n ∧ auxData.length = n ∧ offs.length = n ∧
      (0 < n → offs.getD 0 0 = 0) ∧
      (∀ m, m + 1 < n →
        offs.getD (m + 1) 0 = offs.getD m 0 + (needs.getD m default).Next) ∧
      (∀ m, m < n →
        readVersionNeedAt f.Endianness c (offs.getD m 0) =
          some (needs.getD m default) ∧
        (auxData.getD m default).1.length = (needs.getD m default).Count ∧
        (0 < (needs.getD m default).Count →
          (auxData.getD m default).2.getD 0 0 =
            offs.getD m 0 + (needs.getD m default).AuxOffset) ∧
        (∀ q, q + 1 < (needs.getD m default).Count →
          (auxData.getD m default).2.getD (q + 1) 0 =
            (auxData.getD m default).2.getD q 0 +
              ((auxData.getD m default).1.getD q default).Next) ∧
        (∀ q, q < (needs.getD m default).Count →
          readVersionNeedAuxAt f.Endianness c
            ((auxData.getD m default).2.getD q 0) =
            some ((auxData.getD m default).1.getD q default)))) := by
  have hred : f.ParseVersionRequirementSection i =
      (if n = 0 then .ok ([], [], [])
       else parseVersionNeedLoop f.Endianness c 0 n) := by
    rw [ELF32File.ParseVersionRequirementSection, if_neg (by rw [hty]; simp)]
    simp only [hc, hn]
  constructor
  · intro h0
    rw [hred, if_pos h0]
  · intro needs auxData offs h
    rw [hred] at h
    by_cases h0 : n = 0
    · rw [if_pos h0] at h
      have hinj := Res.ok.inj h
      injection hinj with h1 h23
      injection h23 with h2 h3
      subst h1
      subst h2
      subst h3
      subst h0
      refine ⟨rfl, rfl, rfl, fun hlt => absurd hlt (by omega),
        fun m hm => absurd hm (by omega), fun m hm => absurd hm (by omega)⟩
    · rw [if_neg h0] at h
      obtain ⟨hl, hal, hol, hfirst, hchain, hstep⟩ :=
        parseVersionNeedLoop_ok f.Endianness c n 0 needs auxData offs h
      refine ⟨hl, hal, hol, hfirst, hchain, ?_⟩
      intro m hm
      obtain ⟨hread, haux⟩ := hstep m hm
      obtain ⟨hal2, hol2, hafirst, hachain, hadec⟩ :=
        parseVersionNeedAuxLoop_ok f.Endianness c (needs.getD m default).Count
          (offs.getD m 0 + (needs.getD m default).AuxOffset)
          (auxData.getD m default).1 (auxData.getD m default).2 haux
      exact ⟨hread, hal2, hafirst, hachain, hadec⟩

/-- Counterexample for claim C4 as stated: on a parsed 32-bit file whose
dynamic table declares 2 version requirements while the single Verneed
record has Next 0, the walk succeeds and visits main-record offset 0
twice (the recorded visit trace is 0, 0, not duplicate-free), re-entering
a previously visited offset. -/
theorem C4_versionRequirements_counterexample :
    (ParseELF32File exVerRaw).isOkB = true ∧
    ((ParseELF32File exVerRaw).getOk default).getVersionDependencyTableSize =
      .ok 2 ∧
    ((ParseELF32File exVerRaw).getOk default).ParseVersionRequirementSection 2 =
      .ok ([⟨1, 1, 0, 16, 0⟩, ⟨1, 1, 0, 16, 0⟩],
        [([⟨0, 0, 0, 0, 0⟩], [16]), ([⟨0, 0, 0, 0, 0⟩], [16])],
        [0, 0]) ∧
    ¬ ([0, 0] : List Nat).Nodup := by
  refine ⟨by decide, by decide, by decide, by decide⟩

/-- Witness for the amended claim C4 at the parsed file: the walk returns
exactly the declared 2 records, the single aux chain of the first record
has exactly its Count 1 records, and the first aux record sits at the
main record start plus its AuxOffset 16. -/
theorem C4_versionRequirements_witness :
    ([(⟨1, 1, 0, 16, 0⟩ : ELF32VersionNeed), ⟨1, 1, 0, 16, 0⟩]).length = 2 ∧
    ([(⟨0, 0, 0, 0, 0⟩ : ELF32VersionNeedAux)]).length = 1 ∧
    ([16] : List Nat).getD 0 0 = 0 + 16 := by
  have h := C4_versionRequirements ((ParseELF32File exVerRaw).getOk default) 2 2
    exVerContent (by decide) (by decide) (by decide)
  have h2 := h.2 [⟨1, 1, 0, 16, 0⟩, ⟨1, 1, 0, 16, 0⟩]
    [([⟨0, 0, 0, 0, 0⟩], [16]), ([⟨0, 0, 0, 0, 0⟩], [16])] [0, 0] (by decide)
  have h3 := h2.2.2.2.2.2 0 (by omega)
  exact ⟨h2.1, h3.2.1, h3.2.2.1 (by decide)⟩
